import Mathlib

/-!
Shallow embedding of `decision_tree.py` (incomeClassifier): an ID3-style
decision-tree builder and classifier over records with categorical
(string-valued) and continuous (integer-valued) attributes, plus a
single-attribute baseline model.

Records are modelled as ordered association lists (Python dicts preserve
insertion order).  Values are modelled as already typed (spec §3: each
attribute's type is fixed by integer parseability, so continuous values are
integers and categorical values are non-numeric strings).  Entropy and
information gain are real-valued; the selection loops compare them exactly as
the source compares its floating-point values.  Operations that can raise in
Python (`item[key]` on a missing key, `int()` on a non-numeric string,
`children[1]` out of range, comparison with `None`) are modelled by `Option`
results in `decision_tree_classify`, where failure is the subject of a claim,
and by benign defaults in the builder-side helpers, whose claims all assume
well-formed data.
-/

namespace IncomeTree

/-- A value stored in a record: an integer (continuous attribute) or a
string (categorical attribute). -/
inductive Value where
  | vInt (n : ℤ)
  | vStr (s : String)
deriving DecidableEq

/-- A record: an ordered mapping from attribute name to value
(`load_data` produces Python dicts, which preserve insertion order). -/
abbrev Record := List (String × Value)

abbrev Dataset := List Record

/-- `represents_integer` (decision_tree.py:6): true exactly for values of a
continuous attribute.  The source tests `int(s)` on the stored value; values
are modelled as already typed, so this is the type tag. -/
def represents_integer : Value → Bool
  | .vInt _ => true
  | .vStr _ => false

/-- `item[attribute]` as a partial lookup (first matching key, as in a dict). -/
def lookupVal (r : Record) (attr : String) : Option Value :=
  (r.find? (fun p => p.1 == attr)).map (fun p => p.2)

/-- `item[attribute]` totalised; every claim that uses it assumes the key is
present, where the source would otherwise raise `KeyError`. -/
def getVal (r : Record) (attr : String) : Value :=
  (lookupVal r attr).getD (Value.vStr "")

/-- `int(v)` totalised; the source raises `ValueError` on a non-numeric
string, a case no claim exercises. -/
def valInt : Value → ℤ
  | .vInt n => n
  | .vStr _ => 0

/-- Python `<` on record values: integers compare with integers and strings
with strings; a mixed comparison raises `TypeError` in the source and is
arbitrarily `false` here (no claim exercises it). -/
def valueLt : Value → Value → Bool
  | .vInt m, .vInt n => decide (m < n)
  | .vStr s, .vStr t => compare s t == Ordering.lt
  | _, _ => false

/-- Insertion-order deduplication: the key order of a Python dict built by
inserting each element of `l` in turn (used for `set(...)` sizes and for
`defaultdict` key order). -/
def firstSeen (l : List Value) : List Value :=
  l.foldl (fun acc v => if v ∈ acc then acc else acc ++ [v]) []

/-- `majority_label` (decision_tree.py:218): 0 if strictly more records have
class 0 than not, else 1 (ties resolve to 1). -/
def majority_label (data : Dataset) : ℤ :=
  let counts_negative := data.countP (fun r => getVal r "class" == Value.vInt 0)
  let counts_positive := data.countP (fun r => !(getVal r "class" == Value.vInt 0))
  if counts_negative > counts_positive then 0 else 1

/-- One step of the `for item in data` loop of `get_counts_threshold`
(decision_tree.py:263): the elif-chain routing a record into one of the four
buckets ((below0, below1), (above0, above1)). -/
def gct_step (attr : String) (threshold : ℤ) (c : (ℕ × ℕ) × (ℕ × ℕ))
    (item : Record) : (ℕ × ℕ) × (ℕ × ℕ) :=
  if getVal item "class" = Value.vInt 0 ∧ valInt (getVal item attr) < threshold then
    ((c.1.1 + 1, c.1.2), c.2)
  else if getVal item "class" = Value.vInt 0 ∧ threshold ≤ valInt (getVal item attr) then
    (c.1, (c.2.1 + 1, c.2.2))
  else if getVal item "class" = Value.vInt 1 ∧ valInt (getVal item attr) < threshold then
    ((c.1.1, c.1.2 + 1), c.2)
  else
    (c.1, (c.2.1, c.2.2 + 1))

/-- `get_counts_threshold` (decision_tree.py:259): class counts below/above a
threshold, returned as the ordered dict [('below', _), ('above', _)]. -/
def get_counts_threshold (data : Dataset) (attr : String) (threshold : ℤ) :
    List (Value × (ℕ × ℕ)) :=
  let c := data.foldl (gct_step attr threshold) ((0, 0), (0, 0))
  [(Value.vStr "below", c.1), (Value.vStr "above", c.2)]

/-- The categorical branch of `get_counts` (decision_tree.py:247-256):
per observed category (in first-occurrence order, as the `defaultdict`
produces), the pair (#class-0 records, #other records). -/
def get_counts_cat (data : Dataset) (attr : String) : List (Value × (ℕ × ℕ)) :=
  (firstSeen (data.map (fun r => getVal r attr))).map (fun c =>
    (c, ((data.filter (fun r => getVal r attr = c ∧ getVal r "class" = Value.vInt 0)).length,
         (data.filter (fun r => getVal r attr = c ∧ ¬ getVal r "class" = Value.vInt 0)).length)))

/-- `get_counts` (decision_tree.py:232): dispatches on whether a threshold is
supplied. -/
def get_counts (data : Dataset) (attr : String) (threshold : Option ℤ) :
    List (Value × (ℕ × ℕ)) :=
  match threshold with
  | some t => get_counts_threshold data attr t
  | none => get_counts_cat data attr

/-- `split_on_attribute_threshold` (decision_tree.py:203): the two subsets in
the fixed dict order [('below', <), ('above', ≥)]. -/
def split_on_attribute_threshold (data : Dataset) (attr : String) (threshold : ℤ) :
    List (Dataset × Value) :=
  [(data.filter (fun r => valInt (getVal r attr) < threshold), Value.vStr "below"),
   (data.filter (fun r => ¬ valInt (getVal r attr) < threshold), Value.vStr "above")]

/-- `split_on_attribute` (decision_tree.py:182): per-category subsets in
first-occurrence category order, or the below/above split. -/
def split_on_attribute (data : Dataset) (attr : String) (threshold : Option ℤ) :
    List (Dataset × Value) :=
  match threshold with
  | some t => split_on_attribute_threshold data attr t
  | none =>
    (firstSeen (data.map (fun r => getVal r attr))).map (fun c =>
      (data.filter (fun r => getVal r attr = c), c))

/-- `Node` (decision_tree.py:67): split attribute (none at a leaf), threshold
(set only for continuous splits), majority label, the parent category that
led here, and the ordered children. -/
inductive Node where
  | mk (attr_ : Option String) (threshold : Option ℤ) (label : ℤ)
      (category : Option Value) (children : List Node)

def Node.attribute : Node → Option String
  | .mk a _ _ _ _ => a

def Node.threshold : Node → Option ℤ
  | .mk _ t _ _ _ => t

def Node.label : Node → ℤ
  | .mk _ _ l _ _ => l

def Node.category : Node → Option Value
  | .mk _ _ _ c _ => c

def Node.children : Node → List Node
  | .mk _ _ _ _ cs => cs

/-- `decision_tree_classify` (decision_tree.py:97).  `none` models the source
raising: a missing key, `int()` of a non-numeric string compared against a
`None` threshold, or `children[1]` out of range. -/
def decision_tree_classify (item : Record) (node : Node) : Option ℤ :=
  match node with
  | .mk _ _ label _ [] => some label
  | .mk attr_ threshold _ _ (c0 :: rest) =>
    match attr_ with
    | none => none
    | some a =>
      match lookupVal item a with
      | none => none
      | some category =>
        match represents_integer category with
        | false =>
          -- the `for child in node.children` scan returning the first child with
          -- a matching category, then the line-118 fallback to `children[0]`
          decision_tree_classify item
            (((c0 :: rest).find? (fun child => child.category == some category)).getD c0)
        | true =>
          match threshold with
          | none => none
          | some t =>
            if valInt category < t then decision_tree_classify item c0
            else
              match rest with
              | c1 :: _ => decision_tree_classify item c1
              | [] => none
termination_by sizeOf node
decreasing_by
  · rcases h : (c0 :: rest).find? (fun child => child.category == some category) with _ | child
    · rw [h]
      simp only [Option.getD_none, Node.mk.sizeOf_spec, List.cons.sizeOf_spec]
      omega
    · rw [h]
      have hm : child ∈ c0 :: rest := List.mem_of_find?_eq_some h
      have := List.sizeOf_lt_of_mem hm
      simp only [Option.getD_some, Node.mk.sizeOf_spec]
      omega
  · simp only [Node.mk.sizeOf_spec, List.cons.sizeOf_spec]
    omega
  · simp only [Node.mk.sizeOf_spec, List.cons.sizeOf_spec]
    omega

/-- Depth of a tree in split edges: 0 at a leaf, 1 + deepest child otherwise. -/
def treeDepth (node : Node) : ℕ :=
  match node with
  | .mk _ _ _ _ cs => (cs.attach.map (fun c => treeDepth c.1 + 1)).foldl max 0
termination_by sizeOf node
decreasing_by
  have := List.sizeOf_lt_of_mem c.2
  simp only [Node.mk.sizeOf_spec]
  omega

/-- `get_information_gain` (decision_tree.py:306): parent entropy minus the
counts-weighted conditional entropy of the children, with the source's
zero-count guards (entropy 0 if either class is absent; a child with a zero
count for either class is skipped). -/
noncomputable def get_information_gain (data : Dataset) (attr : String)
    (threshold : Option ℤ) : ℝ :=
  let counts := get_counts data attr threshold
  let total_0 : ℕ := (counts.map (fun e => e.2.1)).sum
  let total_1 : ℕ := (counts.map (fun e => e.2.2)).sum
  let n : ℝ := (data.length : ℝ)
  let entropy : ℝ :=
    if total_0 ≠ 0 ∧ total_1 ≠ 0 then
      -(((total_0 : ℝ) / n) * Real.logb 2 ((total_0 : ℝ) / n) +
        ((total_1 : ℝ) / n) * Real.logb 2 ((total_1 : ℝ) / n))
    else 0
  let conditional_entropy : ℝ :=
    -1 * ((counts.filter (fun e => e.2.1 ≠ 0 ∧ e.2.2 ≠ 0)).map (fun e =>
      let total : ℝ := ((e.2.1 + e.2.2 : ℕ) : ℝ)
      (total / n) *
        (((e.2.1 : ℝ) / total) * Real.logb 2 ((e.2.1 : ℝ) / total) +
         ((e.2.2 : ℝ) / total) * Real.logb 2 ((e.2.2 : ℝ) / total)))).sum
  entropy - conditional_entropy

/-- `get_information_gain_threshold` (decision_tree.py:341): the candidate
threshold's conditional entropy term, computed from the sorted data by
splitting at the first value ≥ the candidate; exactly 0 whenever either side
has a zero count for either class.  The `while` loop and the follow-up `for`
loop are the takeWhile/dropWhile split of the sorted list. -/
noncomputable def get_information_gain_threshold (sorted_data : Dataset)
    (attr : String) (threshold : Value) : ℝ :=
  let below_part := sorted_data.takeWhile (fun r => valueLt (getVal r attr) threshold)
  let above_part := sorted_data.dropWhile (fun r => valueLt (getVal r attr) threshold)
  let counts_bt : ℕ × ℕ :=
    (below_part.countP (fun r => getVal r "class" == Value.vInt 0),
     below_part.countP (fun r => !(getVal r "class" == Value.vInt 0)))
  let counts_at : ℕ × ℕ :=
    (above_part.countP (fun r => getVal r "class" == Value.vInt 0),
     above_part.countP (fun r => !(getVal r "class" == Value.vInt 0)))
  if counts_bt.1 = 0 ∨ counts_bt.2 = 0 ∨ counts_at.1 = 0 ∨ counts_at.2 = 0 then 0
  else
    let total_bt : ℝ := ((counts_bt.1 + counts_bt.2 : ℕ) : ℝ)
    let total_at : ℝ := ((counts_at.1 + counts_at.2 : ℕ) : ℝ)
    let probability_bt : ℝ := total_bt / (sorted_data.length : ℝ)
    let probability_at : ℝ := total_at / (sorted_data.length : ℝ)
    let conditional_bt : ℝ :=
      ((counts_bt.1 : ℝ) / total_bt) * Real.logb 2 ((counts_bt.1 : ℝ) / total_bt) +
      ((counts_bt.2 : ℝ) / total_bt) * Real.logb 2 ((counts_bt.2 : ℝ) / total_bt)
    let conditional_at : ℝ :=
      ((counts_at.1 : ℝ) / total_at) * Real.logb 2 ((counts_at.1 : ℝ) / total_at) +
      ((counts_at.2 : ℝ) / total_at) * Real.logb 2 ((counts_at.2 : ℝ) / total_at)
    probability_bt * -conditional_bt + probability_at * -conditional_at

/-- Stable insertion of a record into a list sorted by an attribute's value:
the incoming record goes after every record whose key is not greater. -/
def insort (attr : String) (r : Record) : Dataset → Dataset
  | [] => [r]
  | y :: ys =>
    if valueLt (getVal r attr) (getVal y attr) then r :: y :: ys
    else y :: insort attr r ys

/-- `sorted(data, key=lambda i: i[attribute])` — a stable sort, so its output
is the unique stably-sorted rearrangement, reproduced by repeated stable
insertion. -/
def pySorted (data : Dataset) (attr : String) : Dataset :=
  data.foldl (fun acc r => insort attr r acc) []

/-- The `for x in range(len(data))` loop of `find_threshold`
(decision_tree.py:292-301), carried state: previous_class, tested (in append
order), max_info_gain, best_threshold. -/
noncomputable def find_threshold_loop (sorted_data : Dataset) (attr : String) :
    List Record → Value → List Value → ℝ → Value → ℝ × Value
  | [], _, _, max_info_gain, best_threshold => (max_info_gain, best_threshold)
  | r :: rest, previous_class, tested, max_info_gain, best_threshold =>
    let v := getVal r attr
    let c := getVal r "class"
    if v ∉ tested ∧ c ≠ previous_class then
      let threshold_info_gain := get_information_gain_threshold sorted_data attr v
      if threshold_info_gain > max_info_gain then
        find_threshold_loop sorted_data attr rest c (tested ++ [v]) threshold_info_gain v
      else
        find_threshold_loop sorted_data attr rest c (tested ++ [v]) max_info_gain best_threshold
    else
      find_threshold_loop sorted_data attr rest c tested max_info_gain best_threshold

/-- `find_threshold` (decision_tree.py:275): best threshold among the
attribute's values at class transitions, ties to the earliest candidate,
initial best 0. -/
noncomputable def find_threshold (data : Dataset) (attr : String) : ℤ :=
  let sorted_data := pySorted data attr
  valInt (find_threshold_loop sorted_data attr sorted_data (Value.vInt (-1)) [] 0
    (Value.vInt 0)).2

/-- The candidate thresholds actually tested by `find_threshold`'s loop, in
test order: same traversal as `find_threshold_loop`, recording `tested`. -/
def candidates_loop (attr : String) : List Record → Value → List Value → List Value
  | [], _, _ => []
  | r :: rest, previous_class, tested =>
    let v := getVal r attr
    let c := getVal r "class"
    if v ∉ tested ∧ c ≠ previous_class then
      v :: candidates_loop attr rest c (tested ++ [v])
    else
      candidates_loop attr rest c tested

/-- The thresholds `find_threshold data attr` evaluates, in evaluation order. -/
def candidate_thresholds (data : Dataset) (attr : String) : List Value :=
  candidates_loop attr (pySorted data attr) (Value.vInt (-1)) []

/-- One iteration of the `for attribute in attributes` selection loop of
`_build_decision_tree` (decision_tree.py:149-162): state is the running
(max_information_gain, best attribute with its threshold); a continuous
attribute carries its freshly found threshold. -/
noncomputable def select_step (data : Dataset) (st : ℝ × Option (String × Option ℤ))
    (a : String) : ℝ × Option (String × Option ℤ) :=
  let threshold : Option ℤ :=
    if represents_integer (getVal (data.headD []) a) then some (find_threshold data a)
    else none
  let information_gain := get_information_gain data a threshold
  if information_gain > st.1 then (information_gain, some (a, threshold)) else st

/-- The selection loop itself, starting from (-1, None). -/
noncomputable def select_attribute (data : Dataset) (attributes : List String) :
    Option (String × Option ℤ) :=
  (attributes.foldl (select_step data) ((-1 : ℝ), (none : Option (String × Option ℤ)))).2

theorem select_foldl_spec (data : Dataset) :
    ∀ (l : List String) (st : ℝ × Option (String × Option ℤ)) (a : String) (thr : Option ℤ),
      (l.foldl (select_step data) st).2 = some (a, thr) →
      st.2 = some (a, thr) ∨
        (a ∈ l ∧ thr = (if represents_integer (getVal (data.headD []) a) then
          some (find_threshold data a) else none)) := by
  intro l
  induction l with
  | nil => intro st a thr h; exact Or.inl h
  | cons x xs ih =>
    intro st a thr h
    rcases ih _ _ _ h with h' | h'
    · simp only [select_step] at h'
      split at h'
      all_goals rename_i hrep
      all_goals split at h'
      · simp only [Option.some.injEq, Prod.mk.injEq] at h'
        rcases h' with ⟨rfl, rfl⟩
        refine Or.inr ⟨List.mem_cons_self _ _, ?_⟩
        simp only [List.headD_eq_head?_getD] at hrep
        simp [hrep]
      · exact Or.inl h'
      · simp only [Option.some.injEq, Prod.mk.injEq] at h'
        rcases h' with ⟨rfl, rfl⟩
        refine Or.inr ⟨List.mem_cons_self _ _, ?_⟩
        simp only [List.headD_eq_head?_getD] at hrep
        simp [hrep]
      · exact Or.inl h'
    · exact Or.inr ⟨List.mem_cons_of_mem _ h'.1, h'.2⟩

/-- The chosen attribute is one of the candidates, and a continuous choice
carries exactly the threshold found for it. -/
theorem select_attribute_spec (data : Dataset) (attributes : List String)
    (a : String) (thr : Option ℤ)
    (h : select_attribute data attributes = some (a, thr)) :
    a ∈ attributes ∧ thr = (if represents_integer (getVal (data.headD []) a) then
      some (find_threshold data a) else none) := by
  rcases select_foldl_spec data attributes _ a thr h with h' | h'
  · exact absurd h' (by simp)
  · exact h'

/-- `max_depth is not None and depth > max_depth` (decision_tree.py:146). -/
def depth_exceeded (max_depth : Option ℕ) (depth : ℕ) : Bool :=
  match max_depth with
  | some m => decide (depth > m)
  | none => false

/-- `_build_decision_tree` (decision_tree.py:137), as a function returning the
node it populates.  The stop tests, their order, and the per-child handling
(empty subsets become leaves labelled with the parent majority) follow the
source line by line; the `none` selection branch is unreachable for non-empty
data (the source would raise there, see `gain_nonneg`). -/
noncomputable def build_aux (data : Dataset) (attributes : List String)
    (max_depth : Option ℕ) (depth : ℕ) (category : Option Value) : Node :=
  let depth' := depth + 1
  let label := majority_label data
  let data_classes := data.map (fun r => getVal r "class")
  if attributes.length = 0 ∨ data_classes.length = (firstSeen data_classes).length then
    Node.mk none none label category []
  else if depth_exceeded max_depth depth' = true then
    Node.mk none none label category []
  else
    match h : select_attribute data attributes with
    | none => Node.mk none none label category []
    | some (best_attribute, best_threshold) =>
      Node.mk (some best_attribute) best_threshold label category
        ((split_on_attribute data best_attribute best_threshold).map (fun subset =>
          if subset.1.length = 0 then Node.mk none none label (some subset.2) []
          else build_aux subset.1 (attributes.erase best_attribute) max_depth depth'
            (some subset.2)))
termination_by attributes.length
decreasing_by
  have hmem : best_attribute ∈ attributes := (select_attribute_spec data attributes _ _ h).1
  have h1 := List.length_erase_of_mem hmem
  have h2 := List.length_pos_of_mem hmem
  omega

/-- `build_decision_tree` (decision_tree.py:121): eligible attributes are the
first record's keys minus the weighting key and the label key. -/
noncomputable def build_decision_tree (data : Dataset) (max_depth : Option ℕ) : Node :=
  let attributes := (((data.headD []).map (fun p => p.1)).erase "fnlwgt").erase "class"
  build_aux data attributes max_depth 0 none

/-- The per-category majority labels derived from a counts table
(decision_tree.py:50-52): 0 when class 0 strictly dominates, else 1. -/
def majority_labels (counts : List (Value × (ℕ × ℕ))) : List (Value × ℤ) :=
  counts.map (fun e => (e.1, if e.2.1 > e.2.2 then (0 : ℤ) else 1))

/-- `correct` of `find_baseline_attribute`'s loop (decision_tree.py:38-39):
per category, the larger class count. -/
def attr_correct (counts : List (Value × (ℕ × ℕ))) : ℕ :=
  (counts.map (fun e => if e.2.1 > e.2.2 then e.2.1 else e.2.2)).sum

/-- Counts used inside the baseline loop (decision_tree.py:33-36): a
continuous attribute's counts at its own freshly found threshold. -/
noncomputable def baseline_counts (data : Dataset) (a : String) :
    List (Value × (ℕ × ℕ)) :=
  if represents_integer (getVal (data.headD []) a) then
    get_counts data a (some (find_threshold data a))
  else get_counts data a none

/-- One iteration of `for attribute in data[0]` (decision_tree.py:29-43).
State: (best_ratio, best_attribute, loop variable).  The loop variable is
recorded even for the skipped weighting attribute, because the source reads
it after the loop (line 46). -/
noncomputable def baseline_step (data : Dataset) (st : ℚ × Option String × String)
    (a : String) : ℚ × Option String × String :=
  if a = "fnlwgt" then (st.1, st.2.1, a)
  else
    let correct := attr_correct (baseline_counts data a)
    if (correct : ℚ) / (data.length : ℚ) > st.1 then
      ((correct : ℚ) / (data.length : ℚ), some a, a)
    else (st.1, st.2.1, a)

/-- `find_baseline_attribute` (decision_tree.py:18): best single attribute by
training accuracy, plus its per-category majority labels.  Line 46 of the
source computes those labels using `find_threshold(data, attribute)` where
`attribute` is the leaked loop variable (the last key of `data[0]`), not
`best_attribute`; the embedding reproduces that.  No threshold is returned. -/
noncomputable def find_baseline_attribute (data : Dataset) :
    Option String × List (Value × ℤ) :=
  let st := ((data.headD []).map (fun p => p.1)).foldl (baseline_step data)
    ((0 : ℚ), (none : Option String), "")
  match st.2.1 with
  | none => (none, [])
  | some best_attribute =>
    let counts :=
      if represents_integer (getVal (data.headD []) best_attribute) then
        get_counts data best_attribute (some (find_threshold data st.2.2))
      else get_counts data best_attribute none
    (some best_attribute, majority_labels counts)

/-! ### Well-formedness of datasets and records (spec §3, §6) -/

/-- The key list of the first record: the attribute universe of the run. -/
def headKeys (data : Dataset) : List String := (data.headD []).map (fun p => p.1)

/-- The attribute type fixed at training time from the representative first
record (spec §4.1 `isContinuous`). -/
def typeAt (data : Dataset) (a : String) : Bool :=
  represents_integer (getVal (data.headD []) a)

/-- The record has the key, with a value of the attribute's training type. -/
def typedLookup (data : Dataset) (r : Record) (a : String) : Bool :=
  match lookupVal r a with
  | some v => represents_integer v == typeAt data a
  | none => false

/-- Well-formed dataset: non-empty, and every record has every attribute of
the first record, with consistently typed values (spec §6). -/
def WFData (data : Dataset) : Prop :=
  data ≠ [] ∧ ∀ r ∈ data, ∀ a ∈ headKeys data, typedLookup data r a = true

/-- Well-formed record relative to the training data: it has every attribute,
with values of the training types. -/
def WFRecord (data : Dataset) (item : Record) : Prop :=
  ∀ a ∈ headKeys data, typedLookup data item a = true

theorem typedLookup_spec {data : Dataset} {r : Record} {a : String}
    (h : typedLookup data r a = true) :
    ∃ v, lookupVal r a = some v ∧ represents_integer v = typeAt data a := by
  unfold typedLookup at h
  split at h
  · exact ⟨_, by assumption, by simpa using h⟩
  · cases h

theorem getVal_of_lookup {r : Record} {a : String} {v : Value}
    (h : lookupVal r a = some v) : getVal r a = v := by
  unfold getVal
  rw [h]
  rfl

theorem headD_mem {data : Dataset} (h : data ≠ []) : data.headD [] ∈ data := by
  cases data with
  | nil => exact absurd rfl h
  | cons x xs => exact List.mem_cons_self _ _

theorem majority_label_cases (data : Dataset) :
    majority_label data = 0 ∨ majority_label data = 1 := by
  simp only [majority_label]
  split
  · exact Or.inl rfl
  · exact Or.inr rfl

/-! ### Unfolding lemmas for the classifier -/

theorem classify_leaf (item : Record) (a : Option String) (t : Option ℤ) (l : ℤ)
    (c : Option Value) :
    decision_tree_classify item (Node.mk a t l c []) = some l := by
  simp [decision_tree_classify]

theorem classify_cat_found (item : Record) (a : String) (t : Option ℤ) (lbl : ℤ)
    (cat : Option Value) (c0 : Node) (rest : List Node) (v : Value) (child : Node)
    (hv : lookupVal item a = some v) (hstr : represents_integer v = false)
    (hfind : (c0 :: rest).find? (fun ch => ch.category == some v) = some child) :
    decision_tree_classify item (Node.mk (some a) t lbl cat (c0 :: rest)) =
      decision_tree_classify item child := by
  cases rest with
  | nil => simp [decision_tree_classify, hv, hstr, hfind]
  | cons c1 tail => simp [decision_tree_classify, hv, hstr, hfind]

theorem classify_cat_fallback (item : Record) (a : String) (t : Option ℤ) (lbl : ℤ)
    (cat : Option Value) (c0 : Node) (rest : List Node) (v : Value)
    (hv : lookupVal item a = some v) (hstr : represents_integer v = false)
    (hfind : (c0 :: rest).find? (fun ch => ch.category == some v) = none) :
    decision_tree_classify item (Node.mk (some a) t lbl cat (c0 :: rest)) =
      decision_tree_classify item c0 := by
  cases rest with
  | nil => simp [decision_tree_classify, hv, hstr, hfind]
  | cons c1 tail => simp [decision_tree_classify, hv, hstr, hfind]

theorem classify_int_two (item : Record) (a : String) (t : ℤ) (lbl : ℤ)
    (cat : Option Value) (c0 c1 : Node) (v : Value)
    (hv : lookupVal item a = some v) (hint : represents_integer v = true) :
    decision_tree_classify item (Node.mk (some a) (some t) lbl cat [c0, c1]) =
      (if valInt v < t then decision_tree_classify item c0
       else decision_tree_classify item c1) := by
  simp only [decision_tree_classify, hv, hint]

/-! ### Tree depth and builder unfolding -/

theorem treeDepth_mk (a : Option String) (t : Option ℤ) (l : ℤ) (c : Option Value)
    (cs : List Node) :
    treeDepth (Node.mk a t l c cs) = (cs.map (fun x => treeDepth x + 1)).foldl max 0 := by
  rw [treeDepth]
  congr 1
  exact List.attach_map_val cs (fun x => treeDepth x + 1)

theorem treeDepth_leaf (a : Option String) (t : Option ℤ) (l : ℤ) (c : Option Value) :
    treeDepth (Node.mk a t l c []) = 0 := by
  rw [treeDepth_mk]
  rfl

theorem foldl_max_le_iff (l : List ℕ) : ∀ (acc B : ℕ),
    l.foldl max acc ≤ B ↔ acc ≤ B ∧ ∀ x ∈ l, x ≤ B := by
  induction l with
  | nil => intro acc B; simp
  | cons x xs ih =>
    intro acc B
    rw [List.foldl_cons, ih]
    simp only [max_le_iff, List.mem_cons]
    constructor
    · rintro ⟨⟨h1, h2⟩, h3⟩
      exact ⟨h1, fun y hy => hy.elim (fun hx => hx ▸ h2) (h3 y)⟩
    · rintro ⟨h1, h2⟩
      exact ⟨⟨h1, h2 x (Or.inl rfl)⟩, fun y hy => h2 y (Or.inr hy)⟩

/-- The first stopping rule of `_build_decision_tree` (line 143): no eligible
attributes, or as many class values as distinct class values. -/
def stop_one (data : Dataset) (attributes : List String) : Prop :=
  attributes.length = 0 ∨
    (data.map (fun r => getVal r "class")).length =
      (firstSeen (data.map (fun r => getVal r "class"))).length

instance (data : Dataset) (attributes : List String) : Decidable (stop_one data attributes) := by
  unfold stop_one
  infer_instance

theorem build_aux_stop_one (data : Dataset) (attributes : List String)
    (max_depth : Option ℕ) (depth : ℕ) (category : Option Value)
    (h : stop_one data attributes) :
    build_aux data attributes max_depth depth category =
      Node.mk none none (majority_label data) category [] := by
  unfold stop_one at h
  rw [build_aux]
  rw [if_pos h]

theorem build_aux_stop_depth (data : Dataset) (attributes : List String)
    (max_depth : Option ℕ) (depth : ℕ) (category : Option Value)
    (h1 : ¬ stop_one data attributes)
    (h2 : depth_exceeded max_depth (depth + 1) = true) :
    build_aux data attributes max_depth depth category =
      Node.mk none none (majority_label data) category [] := by
  unfold stop_one at h1
  rw [build_aux]
  rw [if_neg h1, if_pos h2]

theorem build_aux_stop_none (data : Dataset) (attributes : List String)
    (max_depth : Option ℕ) (depth : ℕ) (category : Option Value)
    (h1 : ¬ stop_one data attributes)
    (h2 : depth_exceeded max_depth (depth + 1) = false)
    (hsel : select_attribute data attributes = none) :
    build_aux data attributes max_depth depth category =
      Node.mk none none (majority_label data) category [] := by
  unfold stop_one at h1
  rw [build_aux]
  rw [if_neg h1, if_neg (by simp [h2])]
  split
  · rfl
  · rename_i ba bt hsel2
    rw [hsel] at hsel2
    cases hsel2

theorem build_aux_split (data : Dataset) (attributes : List String)
    (max_depth : Option ℕ) (depth : ℕ) (category : Option Value)
    (ba : String) (bt : Option ℤ)
    (h1 : ¬ stop_one data attributes)
    (h2 : depth_exceeded max_depth (depth + 1) = false)
    (hsel : select_attribute data attributes = some (ba, bt)) :
    build_aux data attributes max_depth depth category =
      Node.mk (some ba) bt (majority_label data) category
        ((split_on_attribute data ba bt).map (fun subset =>
          if subset.1.length = 0 then
            Node.mk none none (majority_label data) (some subset.2) []
          else build_aux subset.1 (attributes.erase ba) max_depth (depth + 1)
            (some subset.2))) := by
  unfold stop_one at h1
  rw [build_aux]
  rw [if_neg h1, if_neg (by simp [h2])]
  split
  · rename_i hsel2
    rw [hsel] at hsel2
    cases hsel2
  · rename_i ba2 bt2 hsel2
    rw [hsel] at hsel2
    cases hsel2
    rfl

/-! ### Depth bounds for the builder (claims C9, C10) -/

theorem build_aux_depth_le_attrs : ∀ (k : ℕ) (attributes : List String),
    attributes.length ≤ k →
    ∀ (data : Dataset) (max_depth : Option ℕ) (depth : ℕ) (category : Option Value),
      treeDepth (build_aux data attributes max_depth depth category) ≤ attributes.length := by
  intro k
  induction k with
  | zero =>
    intro attributes hlen data max_depth depth category
    have h0 : attributes.length = 0 := Nat.le_zero.mp hlen
    rw [build_aux_stop_one _ _ _ _ _ (Or.inl h0), treeDepth_leaf]
    exact Nat.zero_le _
  | succ k ih =>
    intro attributes hlen data max_depth depth category
    by_cases h1 : stop_one data attributes
    · rw [build_aux_stop_one _ _ _ _ _ h1, treeDepth_leaf]
      exact Nat.zero_le _
    · cases h2 : depth_exceeded max_depth (depth + 1) with
      | true =>
        rw [build_aux_stop_depth _ _ _ _ _ h1 h2, treeDepth_leaf]
        exact Nat.zero_le _
      | false =>
        cases hsel : select_attribute data attributes with
        | none =>
          rw [build_aux_stop_none _ _ _ _ _ h1 h2 hsel, treeDepth_leaf]
          exact Nat.zero_le _
        | some p =>
          obtain ⟨ba, bt⟩ := p
          have hmem : ba ∈ attributes := (select_attribute_spec data attributes ba bt hsel).1
          have hlen1 : 0 < attributes.length := List.length_pos_of_mem hmem
          have herase : (attributes.erase ba).length = attributes.length - 1 :=
            List.length_erase_of_mem hmem
          rw [build_aux_split _ _ _ _ _ _ _ h1 h2 hsel, treeDepth_mk]
          rw [foldl_max_le_iff]
          refine ⟨Nat.zero_le _, ?_⟩
          intro x hx
          rw [List.map_map] at hx
          obtain ⟨subset, hsubset, rfl⟩ := List.mem_map.1 hx
          simp only [Function.comp_apply]
          by_cases hempty : subset.1.length = 0
          · rw [if_pos hempty, treeDepth_leaf]
            omega
          · rw [if_neg hempty]
            have := ih (attributes.erase ba) (by omega) subset.1 max_depth (depth + 1)
              (some subset.2)
            omega

theorem build_aux_depth_le_max : ∀ (k : ℕ) (attributes : List String),
    attributes.length ≤ k →
    ∀ (data : Dataset) (m : ℕ) (depth : ℕ) (category : Option Value),
      treeDepth (build_aux data attributes (some m) depth category) ≤ m - depth := by
  intro k
  induction k with
  | zero =>
    intro attributes hlen data m depth category
    have h0 : attributes.length = 0 := Nat.le_zero.mp hlen
    rw [build_aux_stop_one _ _ _ _ _ (Or.inl h0), treeDepth_leaf]
    exact Nat.zero_le _
  | succ k ih =>
    intro attributes hlen data m depth category
    by_cases h1 : stop_one data attributes
    · rw [build_aux_stop_one _ _ _ _ _ h1, treeDepth_leaf]
      exact Nat.zero_le _
    · cases h2 : depth_exceeded (some m) (depth + 1) with
      | true =>
        rw [build_aux_stop_depth _ _ _ _ _ h1 h2, treeDepth_leaf]
        exact Nat.zero_le _
      | false =>
        have hd : depth + 1 ≤ m := by
          simp only [depth_exceeded, decide_eq_false_iff_not, Nat.not_lt] at h2
          omega
        cases hsel : select_attribute data attributes with
        | none =>
          rw [build_aux_stop_none _ _ _ _ _ h1 h2 hsel, treeDepth_leaf]
          exact Nat.zero_le _
        | some p =>
          obtain ⟨ba, bt⟩ := p
          have hmem : ba ∈ attributes := (select_attribute_spec data attributes ba bt hsel).1
          have hlen1 : 0 < attributes.length := List.length_pos_of_mem hmem
          have herase : (attributes.erase ba).length = attributes.length - 1 :=
            List.length_erase_of_mem hmem
          rw [build_aux_split _ _ _ _ _ _ _ h1 h2 hsel, treeDepth_mk]
          rw [foldl_max_le_iff]
          refine ⟨Nat.zero_le _, ?_⟩
          intro x hx
          rw [List.map_map] at hx
          obtain ⟨subset, hsubset, rfl⟩ := List.mem_map.1 hx
          simp only [Function.comp_apply]
          by_cases hempty : subset.1.length = 0
          · rw [if_pos hempty, treeDepth_leaf]
            omega
          · rw [if_neg hempty]
            have := ih (attributes.erase ba) (by omega) subset.1 m (depth + 1)
              (some subset.2)
            omega

/-! ### Shared example data -/

/-- Two records that share class 0 and differ in one categorical attribute. -/
def exRecord1 : Record :=
  [("color", Value.vStr "red"), ("fnlwgt", Value.vInt 1), ("class", Value.vInt 0)]

def exRecord2 : Record :=
  [("color", Value.vStr "blue"), ("fnlwgt", Value.vInt 2), ("class", Value.vInt 0)]

def exData : Dataset := [exRecord1, exRecord2]

def exLeafX : Node := Node.mk none none 0 (some (Value.vStr "x")) []

def exLeafY : Node := Node.mk none none 1 (some (Value.vStr "y")) []

/-- A categorical split node with two children of categories "x" and "y". -/
def exCatNode : Node := Node.mk (some "color") none 1 none [exLeafX, exLeafY]

/-- A record whose `color` value matches no child of `exCatNode`. -/
def exItemZ : Record :=
  [("color", Value.vStr "z"), ("fnlwgt", Value.vInt 3), ("class", Value.vInt 1)]

/-! ### Claims C8, C9, C10 -/

/-- C8: for a non-leaf node and a record whose (categorical, string-valued)
value for the node's split attribute matches no child's category,
`decision_tree_classify` does not fail: it recurses into `children[0]` and
returns that subtree's classification. -/
theorem C8_unseen_category_fallback (item : Record) (a : String) (t : Option ℤ)
    (lbl : ℤ) (cat : Option Value) (c0 : Node) (rest : List Node) (v : Value)
    (hv : lookupVal item a = some v) (hstr : represents_integer v = false)
    (hnomatch : ∀ child ∈ c0 :: rest, child.category ≠ some v) :
    decision_tree_classify item (Node.mk (some a) t lbl cat (c0 :: rest)) =
      decision_tree_classify item c0 := by
  apply classify_cat_fallback item a t lbl cat c0 rest v hv hstr
  rw [List.find?_eq_none]
  intro ch hch
  simp [hnomatch ch hch]

/-- Witness for C8 at a concrete node and record. -/
theorem C8_witness :
    lookupVal exItemZ "color" = some (Value.vStr "z") ∧
    represents_integer (Value.vStr "z") = false ∧
    (∀ child ∈ [exLeafX, exLeafY], child.category ≠ some (Value.vStr "z")) ∧
    decision_tree_classify exItemZ exCatNode = decision_tree_classify exItemZ exLeafX :=
  ⟨by decide, by decide, by decide,
    C8_unseen_category_fallback exItemZ "color" none 1 none exLeafX [exLeafY]
      (Value.vStr "z") (by decide) (by decide) (by decide)⟩

/-- C9: with a supplied `maxDepth` of m, the built tree's depth (split edges
on the longest root-to-leaf path) is at most m, and `maxDepth = 0` yields a
single leaf. -/
theorem C9_max_depth_bound (data : Dataset) (m : ℕ) (h : data ≠ []) :
    treeDepth (build_decision_tree data (some m)) ≤ m ∧
      (build_decision_tree data (some 0)).children = [] := by
  constructor
  · have := build_aux_depth_le_max
      (((((data.headD []).map (fun p => p.1)).erase "fnlwgt").erase "class").length)
      ((((data.headD []).map (fun p => p.1)).erase "fnlwgt").erase "class")
      le_rfl data m 0 none
    unfold build_decision_tree
    simpa using this
  · unfold build_decision_tree
    by_cases h1 : stop_one data ((((data.headD []).map (fun p => p.1)).erase "fnlwgt").erase "class")
    · rw [build_aux_stop_one _ _ _ _ _ h1]
      rfl
    · rw [build_aux_stop_depth _ _ _ _ _ h1 (by rfl)]
      rfl

/-- Witness for C9 on a concrete dataset. -/
theorem C9_witness :
    exData ≠ [] ∧
    (treeDepth (build_decision_tree exData (some 1)) ≤ 1 ∧
      (build_decision_tree exData (some 0)).children = []) :=
  ⟨by decide, C9_max_depth_bound exData 1 (by decide)⟩

/-- C10: the builder terminates on every non-empty dataset even without a
depth bound: each recursive call strictly shrinks the eligible attribute set,
so the tree depth — hence the recursion depth — is bounded by the number of
non-reserved attributes.  (In this embedding `build_aux` is a total function;
this theorem is the bound that justifies that totality.) -/
theorem C10_build_terminates (data : Dataset) (max_depth : Option ℕ) (h : data ≠ []) :
    treeDepth (build_decision_tree data max_depth) ≤
      ((((data.headD []).map (fun p => p.1)).erase "fnlwgt").erase "class").length := by
  unfold build_decision_tree
  exact build_aux_depth_le_attrs _ _ le_rfl data max_depth 0 none

/-- Witness for C10 on a concrete dataset. -/
theorem C10_witness :
    exData ≠ [] ∧
    treeDepth (build_decision_tree exData none) ≤
      ((((exData.headD []).map (fun p => p.1)).erase "fnlwgt").erase "class").length :=
  ⟨by decide, C10_build_terminates exData none (by decide)⟩

/-! ### Claim C2: classification over built trees is total and binary -/

theorem firstSeen_aux_mem : ∀ (l : List Value) (acc : List Value) (v : Value),
    (v ∈ l.foldl (fun acc v => if v ∈ acc then acc else acc ++ [v]) acc) ↔
      (v ∈ acc ∨ v ∈ l) := by
  intro l
  induction l with
  | nil => simp
  | cons x xs ih =>
    intro acc v
    rw [List.foldl_cons, ih]
    by_cases hx : x ∈ acc
    · rw [if_pos hx]
      simp only [List.mem_cons]
      constructor
      · rintro (h | h)
        · exact Or.inl h
        · exact Or.inr (Or.inr h)
      · rintro (h | h | h)
        · exact Or.inl h
        · exact Or.inl (h ▸ hx)
        · exact Or.inr h
    · rw [if_neg hx]
      simp only [List.mem_append, List.mem_singleton, List.mem_cons]
      tauto

theorem mem_firstSeen (l : List Value) (v : Value) : v ∈ firstSeen l ↔ v ∈ l := by
  unfold firstSeen
  rw [firstSeen_aux_mem]
  simp

theorem firstSeen_ne_nil {l : List Value} (h : l ≠ []) : firstSeen l ≠ [] := by
  cases l with
  | nil => exact absurd rfl h
  | cons x xs =>
    intro hc
    have hm : x ∈ firstSeen (x :: xs) := (mem_firstSeen _ _).mpr (List.mem_cons_self _ _)
    rw [hc] at hm
    cases hm

theorem split_on_attribute_subset (data : Dataset) (attr : String) (thr : Option ℤ) :
    ∀ p ∈ split_on_attribute data attr thr, ∀ r ∈ p.1, r ∈ data := by
  intro p hp r hr
  unfold split_on_attribute at hp
  cases thr with
  | some t =>
    unfold split_on_attribute_threshold at hp
    simp only [List.mem_cons, List.not_mem_nil, or_false] at hp
    rcases hp with rfl | rfl
    · exact List.mem_of_mem_filter hr
    · exact List.mem_of_mem_filter hr
  | none =>
    simp only [List.mem_map] at hp
    obtain ⟨c, hc, rfl⟩ := hp
    exact List.mem_of_mem_filter hr

theorem split_on_attribute_ne_nil (data : Dataset) (attr : String) (thr : Option ℤ)
    (h : data ≠ []) : split_on_attribute data attr thr ≠ [] := by
  unfold split_on_attribute
  cases thr with
  | some t => simp [split_on_attribute_threshold]
  | none =>
    have hm : data.map (fun r => getVal r attr) ≠ [] := by
      simpa [List.map_eq_nil] using h
    intro hc
    rw [List.map_eq_nil] at hc
    exact firstSeen_ne_nil hm hc

theorem typeAt_of_subset {data data' : Dataset} (hWF : WFData data) (hne : data' ≠ [])
    (hsub : ∀ r ∈ data', r ∈ data) {a : String} (ha : a ∈ headKeys data) :
    typeAt data' a = typeAt data a := by
  obtain ⟨w, hw, hwty⟩ := typedLookup_spec ((hWF.2 _ (hsub _ (headD_mem hne))) a ha)
  unfold typeAt
  rw [getVal_of_lookup hw]
  exact hwty

theorem classify_build_aux (data : Dataset) (hWF : WFData data) (item : Record)
    (hitem : WFRecord data item) :
    ∀ (k : ℕ) (attributes : List String), attributes.length ≤ k →
    ∀ (data' : Dataset) (max_depth : Option ℕ) (depth : ℕ) (category : Option Value),
      data' ≠ [] → (∀ r ∈ data', r ∈ data) → (∀ a ∈ attributes, a ∈ headKeys data) →
      ∃ l, decision_tree_classify item (build_aux data' attributes max_depth depth category) =
          some l ∧ (l = 0 ∨ l = 1) := by
  intro k
  induction k with
  | zero =>
    intro attributes hlen data' max_depth depth category hne hsub hkeys
    have h0 : attributes.length = 0 := Nat.le_zero.mp hlen
    rw [build_aux_stop_one _ _ _ _ _ (Or.inl h0)]
    exact ⟨_, classify_leaf _ _ _ _ _, majority_label_cases data'⟩
  | succ k ih =>
    intro attributes hlen data' max_depth depth category hne hsub hkeys
    by_cases h1 : stop_one data' attributes
    · rw [build_aux_stop_one _ _ _ _ _ h1]
      exact ⟨_, classify_leaf _ _ _ _ _, majority_label_cases data'⟩
    · cases h2 : depth_exceeded max_depth (depth + 1) with
      | true =>
        rw [build_aux_stop_depth _ _ _ _ _ h1 h2]
        exact ⟨_, classify_leaf _ _ _ _ _, majority_label_cases data'⟩
      | false =>
        cases hsel : select_attribute data' attributes with
        | none =>
          rw [build_aux_stop_none _ _ _ _ _ h1 h2 hsel]
          exact ⟨_, classify_leaf _ _ _ _ _, majority_label_cases data'⟩
        | some p =>
          obtain ⟨ba, bt⟩ := p
          obtain ⟨hmem, hbt⟩ := select_attribute_spec data' attributes ba bt hsel
          have hbakeys : ba ∈ headKeys data := hkeys ba hmem
          have htype : typeAt data' ba = typeAt data ba :=
            typeAt_of_subset hWF hne hsub hbakeys
          obtain ⟨v, hv, hvty⟩ := typedLookup_spec (hitem ba hbakeys)
          rw [build_aux_split _ _ _ _ _ _ _ h1 h2 hsel]
          have hchild : ∀ subset ∈ split_on_attribute data' ba bt,
              ∃ l, decision_tree_classify item
                (if subset.1.length = 0 then
                  Node.mk none none (majority_label data') (some subset.2) []
                else build_aux subset.1 (attributes.erase ba) max_depth (depth + 1)
                  (some subset.2)) = some l ∧ (l = 0 ∨ l = 1) := by
            intro subset hsubset
            by_cases hempty : subset.1.length = 0
            · rw [if_pos hempty]
              exact ⟨_, classify_leaf _ _ _ _ _, majority_label_cases data'⟩
            · rw [if_neg hempty]
              refine ih (attributes.erase ba) ?_ subset.1 max_depth (depth + 1)
                (some subset.2) ?_ ?_ ?_
              · have := List.length_erase_of_mem hmem
                have := List.length_pos_of_mem hmem
                omega
              · intro hc
                exact hempty (by rw [hc]; rfl)
              · exact fun r hr => hsub r (split_on_attribute_subset data' ba bt subset hsubset r hr)
              · exact fun a ha => hkeys a (List.mem_of_mem_erase ha)
          cases hta : typeAt data ba with
          | true =>
            have hrep' : represents_integer (getVal (data'.headD []) ba) = true :=
              htype.trans hta
            have hbt' : bt = some (find_threshold data' ba) := by
              rw [hbt, if_pos hrep']
            cases v with
            | vStr s =>
              rw [hta] at hvty
              simp [represents_integer] at hvty
            | vInt n =>
              subst hbt'
              obtain ⟨sb, sa, hsplit_eq⟩ : ∃ sb sa,
                  split_on_attribute data' ba (some (find_threshold data' ba)) =
                    [(sb, Value.vStr "below"), (sa, Value.vStr "above")] := ⟨_, _, rfl⟩
              rw [hsplit_eq, List.map_cons, List.map_cons, List.map_nil]
              rw [classify_int_two item ba _ _ _ _ _ (Value.vInt n) hv (by rfl)]
              by_cases hlt : valInt (Value.vInt n) < find_threshold data' ba
              · rw [if_pos hlt]
                exact hchild (sb, Value.vStr "below")
                  (by rw [hsplit_eq]; exact List.mem_cons_self _ _)
              · rw [if_neg hlt]
                exact hchild (sa, Value.vStr "above")
                  (by rw [hsplit_eq]; exact List.mem_cons_of_mem _ (List.mem_cons_self _ _))
          | false =>
            have hrep' : represents_integer (getVal (data'.headD []) ba) = false :=
              htype.trans hta
            have hbt' : bt = none := by
              rw [hbt, if_neg (by rw [hrep']; exact Bool.false_ne_true)]
            cases v with
            | vInt n =>
              rw [hta] at hvty
              simp [represents_integer] at hvty
            | vStr s =>
              subst hbt'
              have hsplit_ne : split_on_attribute data' ba none ≠ [] :=
                split_on_attribute_ne_nil data' ba none hne
              cases hsp : split_on_attribute data' ba none with
              | nil => exact absurd hsp hsplit_ne
              | cons s0 srest =>
                rw [List.map_cons]
                rcases hfind : (((fun subset =>
                    if subset.1.length = 0 then
                      Node.mk none none (majority_label data') (some subset.2) []
                    else build_aux subset.1 (attributes.erase ba) max_depth (depth + 1)
                      (some subset.2)) s0) :: (srest.map (fun subset =>
                    if subset.1.length = 0 then
                      Node.mk none none (majority_label data') (some subset.2) []
                    else build_aux subset.1 (attributes.erase ba) max_depth (depth + 1)
                      (some subset.2)))).find?
                    (fun ch => ch.category == some (Value.vStr s)) with _ | child
                · rw [classify_cat_fallback item ba none _ _ _ _ _ hv (by rfl) hfind]
                  exact hchild s0 (by rw [hsp]; exact List.mem_cons_self _ _)
                · rw [classify_cat_found item ba none _ _ _ _ _ child hv (by rfl) hfind]
                  have hchmem := List.mem_of_find?_eq_some hfind
                  rcases List.mem_cons.1 hchmem with hc | hc
                  · rw [hc]
                    exact hchild s0 (by rw [hsp]; exact List.mem_cons_self _ _)
                  · obtain ⟨subset, hsubmem, hceq⟩ := List.mem_map.1 hc
                    rw [← hceq]
                    exact hchild subset (by rw [hsp]; exact List.mem_cons_of_mem _ hsubmem)

/-- C2: for every well-formed dataset and well-formed record,
`decision_tree_classify` on the built tree succeeds (no lookup, conversion,
or indexing failure at any node, categorical or continuous) and returns a
label in {0, 1}; termination is by construction, since the embedded
classifier is a total function. -/
theorem C2_classify_total (data : Dataset) (max_depth : Option ℕ) (item : Record)
    (hWF : WFData data) (hitem : WFRecord data item) :
    ∃ l, decision_tree_classify item (build_decision_tree data max_depth) = some l ∧
      (l = 0 ∨ l = 1) := by
  have hkeys : ∀ a ∈ (((data.headD []).map (fun p => p.1)).erase "fnlwgt").erase "class",
      a ∈ headKeys data := by
    intro a ha
    exact List.mem_of_mem_erase (List.mem_of_mem_erase ha)
  have h := classify_build_aux data hWF item hitem
    (((((data.headD []).map (fun p => p.1)).erase "fnlwgt").erase "class").length)
    ((((data.headD []).map (fun p => p.1)).erase "fnlwgt").erase "class")
    le_rfl data max_depth 0 none hWF.1 (fun r hr => hr) hkeys
  unfold build_decision_tree
  exact h

instance (data : Dataset) : Decidable (WFData data) := by
  unfold WFData
  infer_instance

instance (data : Dataset) (item : Record) : Decidable (WFRecord data item) := by
  unfold WFRecord
  infer_instance

/-- Witness for C2 at a concrete dataset and record. -/
theorem C2_witness :
    WFData exData ∧ WFRecord exData exItemZ ∧
    ∃ l, decision_tree_classify exItemZ (build_decision_tree exData none) = some l ∧
      (l = 0 ∨ l = 1) :=
  ⟨by decide, by decide, C2_classify_total exData none exItemZ (by decide) (by decide)⟩

/-! ### Claim C3: information gain is non-negative -/

/-- Binary entropy in bits. -/
noncomputable def binEnt (x : ℝ) : ℝ :=
  -(x * Real.logb 2 x + (1 - x) * Real.logb 2 (1 - x))

theorem binEnt_eq_negMulLog (x : ℝ) :
    binEnt x = (Real.negMulLog x + Real.negMulLog (1 - x)) / Real.log 2 := by
  unfold binEnt Real.negMulLog Real.logb
  ring

theorem binEnt_zero : binEnt 0 = 0 := by
  simp [binEnt]

theorem binEnt_one : binEnt 1 = 0 := by
  simp [binEnt]

theorem concaveOn_binEnt : ConcaveOn ℝ (Set.Icc (0 : ℝ) 1) binEnt := by
  have h1 : ConcaveOn ℝ (Set.Icc (0 : ℝ) 1) Real.negMulLog :=
    Real.concaveOn_negMulLog.subset (fun x hx => hx.1) (convex_Icc 0 1)
  have h2 : ConcaveOn ℝ (Set.Icc (0 : ℝ) 1) (fun x => Real.negMulLog (1 - x)) := by
    refine ⟨convex_Icc 0 1, ?_⟩
    intro x hx y hy a b ha hb hab
    have hx1 : (1 : ℝ) - x ∈ Set.Ici (0 : ℝ) := by
      simp only [Set.mem_Ici, sub_nonneg]
      exact hx.2
    have hy1 : (1 : ℝ) - y ∈ Set.Ici (0 : ℝ) := by
      simp only [Set.mem_Ici, sub_nonneg]
      exact hy.2
    have hkey := Real.concaveOn_negMulLog.2 hx1 hy1 ha hb hab
    have harg : a • ((1 : ℝ) - x) + b • ((1 : ℝ) - y) = 1 - (a • x + b • y) := by
      simp only [smul_eq_mul]
      nlinarith [hab]
    rw [harg] at hkey
    exact hkey
  have hsum := h1.add h2
  have hc : (0 : ℝ) ≤ (Real.log 2)⁻¹ := by
    have := Real.log_pos (by norm_num : (1 : ℝ) < 2)
    positivity
  have hsc := hsum.smul hc
  have hfun : binEnt = (Real.log 2)⁻¹ •
      (Real.negMulLog + fun x => Real.negMulLog (1 - x)) := by
    funext x
    rw [binEnt_eq_negMulLog]
    simp only [Pi.smul_apply, Pi.add_apply, smul_eq_mul]
    ring
  rw [hfun]
  exact hsc

theorem list_sum_eq_fin_sum {α β : Type} [AddCommMonoid β] (l : List α)
    (f : α → β) :
    (l.map f).sum = ∑ i : Fin l.length, f (l.get i) := by
  conv_lhs => rw [← List.ofFn_get l]
  rw [List.map_ofFn, List.sum_ofFn]
  rfl

theorem list_sum_map_add {α β : Type} [AddCommMonoid β] (l : List α)
    (f g : α → β) :
    (l.map (fun e => f e + g e)).sum = (l.map f).sum + (l.map g).sum := by
  induction l with
  | nil => simp
  | cons x xs ih =>
    simp only [List.map_cons, List.sum_cons, ih]
    rw [add_add_add_comm]

theorem list_sum_map_neg {α : Type} (l : List α) (g : α → ℝ) :
    (l.map (fun e => -(g e))).sum = -((l.map g).sum) := by
  induction l with
  | nil => simp
  | cons x xs ih =>
    simp only [List.map_cons, List.sum_cons, ih]
    ring

theorem list_sum_nat_cast {α : Type} (l : List α) (f : α → ℕ) :
    (l.map (fun e => ((f e : ℕ) : ℝ))).sum = (((l.map f).sum : ℕ) : ℝ) := by
  induction l with
  | nil => simp
  | cons x xs ih => simp [ih]

theorem list_sum_div {α : Type} (l : List α) (f : α → ℝ) (c : ℝ) :
    (l.map (fun e => f e / c)).sum = (l.map f).sum / c := by
  induction l with
  | nil => simp
  | cons x xs ih => simp [ih, add_div]

/-- Jensen's inequality for the counts-weighted conditional entropy: the
weighted sum of child entropies is at most the entropy of the pooled
class-0 proportion. -/
theorem cond_le_entropy (l : List (Value × (ℕ × ℕ))) (n : ℕ) (hn : 0 < n)
    (hsum : (l.map (fun e => e.2.1 + e.2.2)).sum = n) :
    (l.map (fun e => (((e.2.1 + e.2.2 : ℕ) : ℝ) / (n : ℝ)) *
        binEnt ((e.2.1 : ℝ) / ((e.2.1 + e.2.2 : ℕ) : ℝ)))).sum ≤
      binEnt ((((l.map (fun e => e.2.1)).sum : ℕ) : ℝ) / (n : ℝ)) := by
  have hnR : (0 : ℝ) < (n : ℝ) := by exact_mod_cast hn
  have hW0 : ∀ i : Fin l.length, (0 : ℝ) ≤
      (((l.get i).2.1 + (l.get i).2.2 : ℕ) : ℝ) / (n : ℝ) := by
    intro i
    positivity
  have hWsum : ∑ i : Fin l.length,
      (((l.get i).2.1 + (l.get i).2.2 : ℕ) : ℝ) / (n : ℝ) = 1 := by
    have h1 := list_sum_eq_fin_sum l
      (fun e => ((e.2.1 + e.2.2 : ℕ) : ℝ) / (n : ℝ))
    rw [← h1, list_sum_div, list_sum_nat_cast, hsum]
    exact div_self hnR.ne'
  have hQmem : ∀ i : Fin l.length,
      ((l.get i).2.1 : ℝ) / (((l.get i).2.1 + (l.get i).2.2 : ℕ) : ℝ) ∈
        Set.Icc (0 : ℝ) 1 := by
    intro i
    constructor
    · positivity
    · rcases Nat.eq_zero_or_pos ((l.get i).2.1 + (l.get i).2.2) with h | h
      · rw [h]
        norm_num
      · apply div_le_one_of_le
        · exact_mod_cast Nat.le_add_right _ _
        · positivity
  have hJ := concaveOn_binEnt.le_map_sum (t := (Finset.univ : Finset (Fin l.length)))
    (fun i _ => hW0 i) hWsum (fun i _ => hQmem i)
  have hwq : ∀ i : Fin l.length,
      ((((l.get i).2.1 + (l.get i).2.2 : ℕ) : ℝ) / (n : ℝ)) •
        (((l.get i).2.1 : ℝ) / (((l.get i).2.1 + (l.get i).2.2 : ℕ) : ℝ)) =
        ((l.get i).2.1 : ℝ) / (n : ℝ) := by
    intro i
    rcases Nat.eq_zero_or_pos ((l.get i).2.1 + (l.get i).2.2) with h | h
    · have h1 : (l.get i).2.1 = 0 := by omega
      rw [h, h1]
      simp
    · have hne : (((l.get i).2.1 + (l.get i).2.2 : ℕ) : ℝ) ≠ 0 := by positivity
      rw [smul_eq_mul]
      have hr : ((((l.get i).2.1 + (l.get i).2.2 : ℕ) : ℝ) / (n : ℝ)) *
          (((l.get i).2.1 : ℝ) / (((l.get i).2.1 + (l.get i).2.2 : ℕ) : ℝ)) =
          (((l.get i).2.1 : ℝ) / (n : ℝ)) *
            ((((l.get i).2.1 + (l.get i).2.2 : ℕ) : ℝ) /
              (((l.get i).2.1 + (l.get i).2.2 : ℕ) : ℝ)) := by
        ring
      rw [hr, div_self hne, mul_one]
  have hQsum : ∑ i : Fin l.length,
      ((((l.get i).2.1 + (l.get i).2.2 : ℕ) : ℝ) / (n : ℝ)) •
        (((l.get i).2.1 : ℝ) / (((l.get i).2.1 + (l.get i).2.2 : ℕ) : ℝ)) =
      (((l.map (fun e => e.2.1)).sum : ℕ) : ℝ) / (n : ℝ) := by
    rw [Finset.sum_congr rfl (fun i _ => hwq i)]
    have h1 := list_sum_eq_fin_sum l (fun e => ((e.2.1 : ℕ) : ℝ) / (n : ℝ))
    rw [← h1, list_sum_div, list_sum_nat_cast]
  rw [hQsum] at hJ
  have hL := list_sum_eq_fin_sum l (fun e => (((e.2.1 + e.2.2 : ℕ) : ℝ) / (n : ℝ)) *
    binEnt ((e.2.1 : ℝ) / ((e.2.1 + e.2.2 : ℕ) : ℝ)))
  rw [hL]
  calc ∑ i : Fin l.length, (((((l.get i).2.1 + (l.get i).2.2 : ℕ) : ℝ) / (n : ℝ)) *
        binEnt (((l.get i).2.1 : ℝ) / (((l.get i).2.1 + (l.get i).2.2 : ℕ) : ℝ)))
      = ∑ i : Fin l.length, ((((l.get i).2.1 + (l.get i).2.2 : ℕ) : ℝ) / (n : ℝ)) •
        binEnt (((l.get i).2.1 : ℝ) / (((l.get i).2.1 + (l.get i).2.2 : ℕ) : ℝ)) := by
        exact Finset.sum_congr rfl (fun i _ => by rw [smul_eq_mul])
    _ ≤ _ := hJ

theorem entropy_eq_binEnt (t0 t1 n : ℕ) (hn : 0 < n) (hsum : t0 + t1 = n) :
    (if t0 ≠ 0 ∧ t1 ≠ 0 then
      -(((t0 : ℕ) : ℝ) / (n : ℝ) * Real.logb 2 (((t0 : ℕ) : ℝ) / (n : ℝ)) +
        ((t1 : ℕ) : ℝ) / (n : ℝ) * Real.logb 2 (((t1 : ℕ) : ℝ) / (n : ℝ)))
    else 0) = binEnt (((t0 : ℕ) : ℝ) / (n : ℝ)) := by
  have hnR : ((n : ℕ) : ℝ) ≠ 0 := by positivity
  split
  · rename_i h
    have hcast : ((t0 : ℕ) : ℝ) + ((t1 : ℕ) : ℝ) = ((n : ℕ) : ℝ) := by
      exact_mod_cast congrArg (fun x : ℕ => (x : ℝ)) hsum
    have h1 : (1 : ℝ) - ((t0 : ℕ) : ℝ) / (n : ℝ) = ((t1 : ℕ) : ℝ) / (n : ℝ) := by
      field_simp
      linarith
    unfold binEnt
    rw [h1]
  · rename_i h
    have h' : t0 = 0 ∨ t1 = 0 := by tauto
    rcases h' with h0 | h0
    · subst h0
      norm_num [binEnt_zero]
    · have h1 : t0 = n := by omega
      subst h1
      rw [div_self hnR, binEnt_one]

theorem cond_term_eq (e : Value × (ℕ × ℕ)) (n : ℝ) (h1 : e.2.1 ≠ 0) (h2 : e.2.2 ≠ 0) :
    (((e.2.1 + e.2.2 : ℕ) : ℝ) / n) *
      (((e.2.1 : ℝ) / ((e.2.1 + e.2.2 : ℕ) : ℝ)) *
        Real.logb 2 ((e.2.1 : ℝ) / ((e.2.1 + e.2.2 : ℕ) : ℝ)) +
       ((e.2.2 : ℝ) / ((e.2.1 + e.2.2 : ℕ) : ℝ)) *
        Real.logb 2 ((e.2.2 : ℝ) / ((e.2.1 + e.2.2 : ℕ) : ℝ))) =
    -((((e.2.1 + e.2.2 : ℕ) : ℝ) / n) *
      binEnt ((e.2.1 : ℝ) / ((e.2.1 + e.2.2 : ℕ) : ℝ))) := by
  have htot : (((e.2.1 + e.2.2 : ℕ) : ℝ)) ≠ 0 := Nat.cast_ne_zero.mpr (by omega)
  have hq : ((e.2.2 : ℝ) / ((e.2.1 + e.2.2 : ℕ) : ℝ)) =
      1 - ((e.2.1 : ℝ) / ((e.2.1 + e.2.2 : ℕ) : ℝ)) := by
    field_simp
    all_goals push_cast
    all_goals ring_nf
  rw [hq]
  unfold binEnt
  ring

theorem cond_term_zero (e : Value × (ℕ × ℕ)) (n : ℝ)
    (h : ¬(e.2.1 ≠ 0 ∧ e.2.2 ≠ 0)) :
    (((e.2.1 + e.2.2 : ℕ) : ℝ) / n) *
      binEnt ((e.2.1 : ℝ) / ((e.2.1 + e.2.2 : ℕ) : ℝ)) = 0 := by
  have h' : e.2.1 = 0 ∨ e.2.2 = 0 := by tauto
  rcases h' with h0 | h0
  · rw [h0]
    norm_num [binEnt_zero]
  · rcases Nat.eq_zero_or_pos e.2.1 with h1 | h1
    · rw [h0, h1]
      norm_num [binEnt_zero]
    · have htot : ((e.2.1 + e.2.2 : ℕ) : ℝ) ≠ 0 := Nat.cast_ne_zero.mpr (by omega)
      have hq1 : ((e.2.1 : ℝ)) / ((e.2.1 + e.2.2 : ℕ) : ℝ) = 1 := by
        rw [h0, Nat.add_zero]
        exact div_self (Nat.cast_ne_zero.mpr (by omega))
      rw [hq1, binEnt_one, mul_zero]

theorem filter_map_sum_eq {α : Type} (l : List α) (p : α → Bool) (g : α → ℝ)
    (h : ∀ e ∈ l, p e = false → g e = 0) :
    ((l.filter p).map g).sum = (l.map g).sum := by
  induction l with
  | nil => rfl
  | cons x xs ih =>
    rw [List.filter_cons]
    by_cases hx : p x = true
    · rw [if_pos hx, List.map_cons, List.sum_cons, List.map_cons, List.sum_cons,
        ih (fun e he hpe => h e (List.mem_cons_of_mem _ he) hpe)]
    · rw [if_neg hx, List.map_cons, List.sum_cons,
        ih (fun e he hpe => h e (List.mem_cons_of_mem _ he) hpe),
        h x (List.mem_cons_self _ _) (by simpa using hx), zero_add]

theorem firstSeen_aux_nodup : ∀ (l acc : List Value), acc.Nodup →
    (l.foldl (fun acc v => if v ∈ acc then acc else acc ++ [v]) acc).Nodup := by
  intro l
  induction l with
  | nil => intro acc h; exact h
  | cons x xs ih =>
    intro acc h
    rw [List.foldl_cons]
    apply ih
    by_cases hx : x ∈ acc
    · rw [if_pos hx]
      exact h
    · rw [if_neg hx]
      exact List.Nodup.append h (List.nodup_singleton x)
        (by simpa [List.disjoint_singleton] using hx)

theorem firstSeen_nodup (l : List Value) : (firstSeen l).Nodup :=
  firstSeen_aux_nodup l [] List.nodup_nil

theorem gct_fold_sum (attr : String) (t : ℤ) : ∀ (l : Dataset) (acc : (ℕ × ℕ) × (ℕ × ℕ)),
    (((l.foldl (gct_step attr t) acc).1.1 + (l.foldl (gct_step attr t) acc).1.2) +
      ((l.foldl (gct_step attr t) acc).2.1 + (l.foldl (gct_step attr t) acc).2.2)) =
    ((acc.1.1 + acc.1.2) + (acc.2.1 + acc.2.2)) + l.length := by
  intro l
  induction l with
  | nil => intro acc; simp
  | cons r rs ih =>
    intro acc
    rw [List.foldl_cons, ih]
    have hstep : ((gct_step attr t acc r).1.1 + (gct_step attr t acc r).1.2) +
        ((gct_step attr t acc r).2.1 + (gct_step attr t acc r).2.2) =
        ((acc.1.1 + acc.1.2) + (acc.2.1 + acc.2.2)) + 1 := by
      unfold gct_step
      repeat' split
      all_goals dsimp only
      all_goals omega
    rw [hstep]
    simp only [List.length_cons]
    omega

theorem get_counts_threshold_sum (data : Dataset) (attr : String) (t : ℤ) :
    ((get_counts_threshold data attr t).map (fun e => e.2.1 + e.2.2)).sum = data.length := by
  simp only [get_counts_threshold, List.map_cons, List.map_nil, List.sum_cons, List.sum_nil]
  have h := gct_fold_sum attr t data ((0, 0), (0, 0))
  dsimp only at h
  omega

theorem filter_and_not_length (l : Dataset) (p q : Record → Prop)
    [DecidablePred p] [DecidablePred q] :
    (l.filter (fun r => p r ∧ q r)).length + (l.filter (fun r => p r ∧ ¬ q r)).length =
      (l.filter (fun r => p r)).length := by
  induction l with
  | nil => rfl
  | cons x xs ih =>
    simp only [List.filter_cons]
    by_cases hp : p x <;> by_cases hq : q x
    · rw [if_pos (by simp [hp, hq]), if_neg (by simp [hp, hq]), if_pos (by simp [hp])]
      simp only [List.length_cons]
      omega
    · rw [if_neg (by simp [hp, hq]), if_pos (by simp [hp, hq]), if_pos (by simp [hp])]
      simp only [List.length_cons]
      omega
    · rw [if_neg (by simp [hp]), if_neg (by simp [hp]), if_neg (by simp [hp])]
      omega
    · rw [if_neg (by simp [hp]), if_neg (by simp [hp]), if_neg (by simp [hp])]
      omega

theorem sum_ite_count (a : Value) : ∀ (cs : List Value),
    (cs.map (fun c => if a = c then 1 else 0)).sum = cs.count a := by
  intro cs
  induction cs with
  | nil => rfl
  | cons c cs ih =>
    by_cases h : a = c
    · subst h
      simp [List.count_cons, ih]
      all_goals omega
    · simp [List.count_cons, h, ih, Ne.symm h]
      all_goals omega

theorem sum_filter_categories (f : Record → Value) : ∀ (l : Dataset) (cs : List Value),
    cs.Nodup → (∀ r ∈ l, f r ∈ cs) →
    (cs.map (fun c => (l.filter (fun r => f r = c)).length)).sum = l.length := by
  intro l
  induction l with
  | nil =>
    intro cs _ _
    simp
  | cons r rs ih =>
    intro cs hnd hcomp
    have hr : f r ∈ cs := hcomp r (List.mem_cons_self _ _)
    have hstep : ∀ c, (List.filter (fun x => decide (f x = c)) (r :: rs)).length =
        (rs.filter (fun x => f x = c)).length + (if f r = c then 1 else 0) := by
      intro c
      rw [List.filter_cons]
      by_cases h : f r = c
      · simp [h]
      · simp [h]
    rw [List.map_congr_left (fun c _ => hstep c), list_sum_map_add,
      ih cs hnd (fun x hx => hcomp x (List.mem_cons_of_mem _ hx)),
      sum_ite_count, List.count_eq_one_of_mem hnd hr]
    rfl

theorem get_counts_cat_sum (data : Dataset) (attr : String) :
    ((get_counts_cat data attr).map (fun e => e.2.1 + e.2.2)).sum = data.length := by
  unfold get_counts_cat
  rw [List.map_map]
  have hpt : ∀ c ∈ firstSeen (data.map (fun r => getVal r attr)),
      ((fun e : Value × (ℕ × ℕ) => e.2.1 + e.2.2) ∘ fun c =>
        (c, ((data.filter (fun r => getVal r attr = c ∧ getVal r "class" = Value.vInt 0)).length,
             (data.filter (fun r => getVal r attr = c ∧ ¬ getVal r "class" = Value.vInt 0)).length))) c =
      (data.filter (fun r => getVal r attr = c)).length := by
    intro c _
    exact filter_and_not_length data (fun r => getVal r attr = c)
      (fun r => getVal r "class" = Value.vInt 0)
  rw [List.map_congr_left hpt]
  apply sum_filter_categories (fun r => getVal r attr) data _ (firstSeen_nodup _)
  intro r hr
  exact (mem_firstSeen _ _).mpr (List.mem_map_of_mem _ hr)

theorem get_counts_sum (data : Dataset) (attr : String) (threshold : Option ℤ) :
    ((get_counts data attr threshold).map (fun e => e.2.1 + e.2.2)).sum = data.length := by
  unfold get_counts
  cases threshold with
  | some t => exact get_counts_threshold_sum data attr t
  | none => exact get_counts_cat_sum data attr

theorem gain_core (counts : List (Value × (ℕ × ℕ))) (n : ℕ) (hn : 0 < n)
    (hsum : (counts.map (fun e => e.2.1 + e.2.2)).sum = n) :
    0 ≤ (if (counts.map (fun e => e.2.1)).sum ≠ 0 ∧ (counts.map (fun e => e.2.2)).sum ≠ 0 then
          -((((counts.map (fun e => e.2.1)).sum : ℕ) : ℝ) / (n : ℝ) *
              Real.logb 2 ((((counts.map (fun e => e.2.1)).sum : ℕ) : ℝ) / (n : ℝ)) +
            (((counts.map (fun e => e.2.2)).sum : ℕ) : ℝ) / (n : ℝ) *
              Real.logb 2 ((((counts.map (fun e => e.2.2)).sum : ℕ) : ℝ) / (n : ℝ)))
        else 0) -
      (-1 * ((counts.filter (fun e => e.2.1 ≠ 0 ∧ e.2.2 ≠ 0)).map (fun e =>
        (((e.2.1 + e.2.2 : ℕ) : ℝ) / (n : ℝ)) *
          (((e.2.1 : ℝ) / ((e.2.1 + e.2.2 : ℕ) : ℝ)) *
              Real.logb 2 ((e.2.1 : ℝ) / ((e.2.1 + e.2.2 : ℕ) : ℝ)) +
           ((e.2.2 : ℝ) / ((e.2.1 + e.2.2 : ℕ) : ℝ)) *
              Real.logb 2 ((e.2.2 : ℝ) / ((e.2.1 + e.2.2 : ℕ) : ℝ))))).sum) := by
  have hT : (counts.map (fun e => e.2.1)).sum + (counts.map (fun e => e.2.2)).sum = n := by
    rw [← list_sum_map_add]
    exact hsum
  rw [entropy_eq_binEnt _ _ _ hn hT]
  have hterm : ∀ e ∈ counts.filter (fun e => e.2.1 ≠ 0 ∧ e.2.2 ≠ 0),
      (((e.2.1 + e.2.2 : ℕ) : ℝ) / (n : ℝ)) *
        (((e.2.1 : ℝ) / ((e.2.1 + e.2.2 : ℕ) : ℝ)) *
            Real.logb 2 ((e.2.1 : ℝ) / ((e.2.1 + e.2.2 : ℕ) : ℝ)) +
         ((e.2.2 : ℝ) / ((e.2.1 + e.2.2 : ℕ) : ℝ)) *
            Real.logb 2 ((e.2.2 : ℝ) / ((e.2.1 + e.2.2 : ℕ) : ℝ))) =
      (fun e : Value × (ℕ × ℕ) => -((((e.2.1 + e.2.2 : ℕ) : ℝ) / (n : ℝ)) *
        binEnt ((e.2.1 : ℝ) / ((e.2.1 + e.2.2 : ℕ) : ℝ)))) e := by
    intro e he
    have hp : e.2.1 ≠ 0 ∧ e.2.2 ≠ 0 := by simpa using (List.mem_filter.mp he).2
    exact cond_term_eq e (n : ℝ) hp.1 hp.2
  rw [List.map_congr_left hterm, list_sum_map_neg]
  rw [filter_map_sum_eq counts _ _
    (fun e _ hpe => cond_term_zero e (n : ℝ) (by simpa using hpe))]
  have hle := cond_le_entropy counts n hn hsum
  linarith

/-- C3: for every non-empty dataset, every attribute, and every threshold
(including every threshold that actually occurs for a continuous attribute),
`get_information_gain` — parent entropy minus the counts-weighted conditional
entropy of the children, zero-count children contributing 0 — is ≥ 0. -/
theorem C3_gain_nonneg (data : Dataset) (attr : String) (threshold : Option ℤ)
    (hne : data ≠ []) : 0 ≤ get_information_gain data attr threshold := by
  have hn : 0 < data.length := List.length_pos.mpr hne
  simp only [get_information_gain]
  exact gain_core (get_counts data attr threshold) data.length hn
    (get_counts_sum data attr threshold)

/-- Witness for C3 at a concrete dataset, attribute and threshold. -/
theorem C3_witness :
    exData ≠ [] ∧ 0 ≤ get_information_gain exData "color" none :=
  ⟨by decide, C3_gain_nonneg exData "color" none (by decide)⟩

/-! ### Claim C6: the threshold search -/

theorem neg_cond_pos (c1 c2 : ℕ) (h1 : 0 < c1) (h2 : 0 < c2) :
    0 < -(((c1 : ℕ) : ℝ) / ((c1 + c2 : ℕ) : ℝ) *
          Real.logb 2 (((c1 : ℕ) : ℝ) / ((c1 + c2 : ℕ) : ℝ)) +
        ((c2 : ℕ) : ℝ) / ((c1 + c2 : ℕ) : ℝ) *
          Real.logb 2 (((c2 : ℕ) : ℝ) / ((c1 + c2 : ℕ) : ℝ))) := by
  have htot : (0 : ℝ) < ((c1 + c2 : ℕ) : ℝ) := by
    have : 0 < c1 + c2 := by omega
    exact_mod_cast this
  have hq1 : (0 : ℝ) < ((c1 : ℕ) : ℝ) / ((c1 + c2 : ℕ) : ℝ) := by
    have : (0 : ℝ) < ((c1 : ℕ) : ℝ) := by exact_mod_cast h1
    positivity
  have hq2 : (0 : ℝ) < ((c2 : ℕ) : ℝ) / ((c1 + c2 : ℕ) : ℝ) := by
    have : (0 : ℝ) < ((c2 : ℕ) : ℝ) := by exact_mod_cast h2
    positivity
  have hq1' : ((c1 : ℕ) : ℝ) / ((c1 + c2 : ℕ) : ℝ) < 1 := by
    rw [div_lt_one htot]
    exact_mod_cast Nat.lt_add_of_pos_right h2
  have hq2' : ((c2 : ℕ) : ℝ) / ((c1 + c2 : ℕ) : ℝ) < 1 := by
    rw [div_lt_one htot]
    have : c2 < c1 + c2 := by omega
    exact_mod_cast this
  have hl1 : Real.logb 2 (((c1 : ℕ) : ℝ) / ((c1 + c2 : ℕ) : ℝ)) < 0 :=
    Real.logb_neg (by norm_num) hq1 hq1'
  have hl2 : Real.logb 2 (((c2 : ℕ) : ℝ) / ((c1 + c2 : ℕ) : ℝ)) < 0 :=
    Real.logb_neg (by norm_num) hq2 hq2'
  nlinarith

/-- The candidate gain is strictly positive whenever both sides of the split
contain both classes. -/
theorem igthr_pos (sorted_data : Dataset) (attr : String) (threshold : Value)
    (h1 : 0 < (sorted_data.takeWhile (fun r => valueLt (getVal r attr) threshold)).countP
        (fun r => getVal r "class" == Value.vInt 0))
    (h2 : 0 < (sorted_data.takeWhile (fun r => valueLt (getVal r attr) threshold)).countP
        (fun r => !(getVal r "class" == Value.vInt 0)))
    (h3 : 0 < (sorted_data.dropWhile (fun r => valueLt (getVal r attr) threshold)).countP
        (fun r => getVal r "class" == Value.vInt 0))
    (h4 : 0 < (sorted_data.dropWhile (fun r => valueLt (getVal r attr) threshold)).countP
        (fun r => !(getVal r "class" == Value.vInt 0))) :
    0 < get_information_gain_threshold sorted_data attr threshold := by
  have hlen : 0 < sorted_data.length := by
    have hle := List.countP_le_length
      (p := fun r => getVal r "class" == Value.vInt 0)
      (l := sorted_data.takeWhile (fun r => valueLt (getVal r attr) threshold))
    have htw : (sorted_data.takeWhile (fun r => valueLt (getVal r attr) threshold)).length ≤
        sorted_data.length :=
      (List.takeWhile_sublist (fun r => valueLt (getVal r attr) threshold)).length_le
    omega
  have hlenR : (0 : ℝ) < (sorted_data.length : ℝ) := by exact_mod_cast hlen
  simp only [get_information_gain_threshold]
  rw [if_neg (by push_neg; omega)]
  have hb := neg_cond_pos _ _ h1 h2
  have ha := neg_cond_pos _ _ h3 h4
  have hpb : (0 : ℝ) <
      (((sorted_data.takeWhile (fun r => valueLt (getVal r attr) threshold)).countP
          (fun r => getVal r "class" == Value.vInt 0) +
        (sorted_data.takeWhile (fun r => valueLt (getVal r attr) threshold)).countP
          (fun r => !(getVal r "class" == Value.vInt 0)) : ℕ) : ℝ) /
        (sorted_data.length : ℝ) := by
    have : (0 : ℝ) <
        (((sorted_data.takeWhile (fun r => valueLt (getVal r attr) threshold)).countP
            (fun r => getVal r "class" == Value.vInt 0) +
          (sorted_data.takeWhile (fun r => valueLt (getVal r attr) threshold)).countP
            (fun r => !(getVal r "class" == Value.vInt 0)) : ℕ) : ℝ) := by
      have : 0 < (sorted_data.takeWhile (fun r => valueLt (getVal r attr) threshold)).countP
            (fun r => getVal r "class" == Value.vInt 0) +
          (sorted_data.takeWhile (fun r => valueLt (getVal r attr) threshold)).countP
            (fun r => !(getVal r "class" == Value.vInt 0)) := by omega
      exact_mod_cast this
    positivity
  have hpa : (0 : ℝ) <
      (((sorted_data.dropWhile (fun r => valueLt (getVal r attr) threshold)).countP
          (fun r => getVal r "class" == Value.vInt 0) +
        (sorted_data.dropWhile (fun r => valueLt (getVal r attr) threshold)).countP
          (fun r => !(getVal r "class" == Value.vInt 0)) : ℕ) : ℝ) /
        (sorted_data.length : ℝ) := by
    have : (0 : ℝ) <
        (((sorted_data.dropWhile (fun r => valueLt (getVal r attr) threshold)).countP
            (fun r => getVal r "class" == Value.vInt 0) +
          (sorted_data.dropWhile (fun r => valueLt (getVal r attr) threshold)).countP
            (fun r => !(getVal r "class" == Value.vInt 0)) : ℕ) : ℝ) := by
      have : 0 < (sorted_data.dropWhile (fun r => valueLt (getVal r attr) threshold)).countP
            (fun r => getVal r "class" == Value.vInt 0) +
          (sorted_data.dropWhile (fun r => valueLt (getVal r attr) threshold)).countP
            (fun r => !(getVal r "class" == Value.vInt 0)) := by omega
      exact_mod_cast this
    positivity
  have t1 := mul_pos hpb hb
  have t2 := mul_pos hpa ha
  nlinarith

/-- One comparison step of `find_threshold`'s loop, abstracted over the
candidate being tested. -/
noncomputable def gain_fold (sorted_data : Dataset) (attr : String)
    (st : ℝ × Value) (t : Value) : ℝ × Value :=
  if get_information_gain_threshold sorted_data attr t > st.1
  then (get_information_gain_threshold sorted_data attr t, t) else st

/-- `find_threshold`'s loop is the pure best-so-far fold over the candidate
thresholds it tests. -/
theorem ft_loop_eq_fold (sorted_data : Dataset) (attr : String) :
    ∀ (l : List Record) (prev : Value) (tested : List Value) (m : ℝ) (b : Value),
    find_threshold_loop sorted_data attr l prev tested m b =
      (candidates_loop attr l prev tested).foldl (gain_fold sorted_data attr) (m, b) := by
  intro l
  induction l with
  | nil => intro prev tested m b; rfl
  | cons r rest ih =>
    intro prev tested m b
    by_cases h : getVal r attr ∉ tested ∧ getVal r "class" ≠ prev
    · simp only [find_threshold_loop, candidates_loop]
      rw [if_pos h, if_pos h, List.foldl_cons]
      by_cases hg : get_information_gain_threshold sorted_data attr (getVal r attr) > m
      · rw [if_pos hg, ih]
        congr 1
        simp only [gain_fold]
        rw [if_pos hg]
      · rw [if_neg hg, ih]
        congr 1
        simp only [gain_fold]
        rw [if_neg hg]
    · simp only [find_threshold_loop, candidates_loop]
      rw [if_neg h, if_neg h]
      exact ih _ _ _ _

theorem gain_fold_mem (sorted_data : Dataset) (attr : String) :
    ∀ (C : List Value) (st : ℝ × Value),
      (C.foldl (gain_fold sorted_data attr) st).2 = st.2 ∨
        (C.foldl (gain_fold sorted_data attr) st).2 ∈ C := by
  intro C
  induction C with
  | nil => intro st; exact Or.inl rfl
  | cons c cs ih =>
    intro st
    rw [List.foldl_cons]
    rcases ih (gain_fold sorted_data attr st c) with h | h
    · rw [h]
      simp only [gain_fold]
      split
      · exact Or.inr (List.mem_cons_self _ _)
      · exact Or.inl rfl
    · exact Or.inr (List.mem_cons_of_mem _ h)

theorem gain_fold_no_improve (sorted_data : Dataset) (attr : String) :
    ∀ (C : List Value) (st : ℝ × Value),
      (∀ t ∈ C, get_information_gain_threshold sorted_data attr t ≤ st.1) →
      C.foldl (gain_fold sorted_data attr) st = st := by
  intro C
  induction C with
  | nil => intro st _; rfl
  | cons c cs ih =>
    intro st h
    rw [List.foldl_cons]
    have hc : gain_fold sorted_data attr st c = st := by
      simp only [gain_fold]
      rw [if_neg (not_lt.mpr (h c (List.mem_cons_self _ _)))]
    rw [hc]
    exact ih st (fun t ht => h t (List.mem_cons_of_mem _ ht))

theorem gain_fold_first_max (sorted_data : Dataset) (attr : String) :
    ∀ (C : List Value) (st : ℝ × Value),
      (∃ t ∈ C, get_information_gain_threshold sorted_data attr t > st.1) →
      ∃ pre t post, C = pre ++ t :: post ∧
        C.foldl (gain_fold sorted_data attr) st =
          (get_information_gain_threshold sorted_data attr t, t) ∧
        st.1 < get_information_gain_threshold sorted_data attr t ∧
        (∀ c ∈ pre, get_information_gain_threshold sorted_data attr c <
          get_information_gain_threshold sorted_data attr t) ∧
        (∀ c ∈ C, get_information_gain_threshold sorted_data attr c ≤
          get_information_gain_threshold sorted_data attr t) := by
  intro C
  induction C with
  | nil => intro st h; simp at h
  | cons c cs ih =>
    intro st hex
    rw [List.foldl_cons]
    by_cases hc : get_information_gain_threshold sorted_data attr c > st.1
    · have hstep : gain_fold sorted_data attr st c =
          (get_information_gain_threshold sorted_data attr c, c) := by
        simp only [gain_fold]
        rw [if_pos hc]
      rw [hstep]
      by_cases hex2 : ∃ t ∈ cs, get_information_gain_threshold sorted_data attr t >
          get_information_gain_threshold sorted_data attr c
      · obtain ⟨pre, t, post, hC, hfold, hlt, hpre, hall⟩ :=
          ih (get_information_gain_threshold sorted_data attr c, c) hex2
        refine ⟨c :: pre, t, post, by rw [hC, List.cons_append], hfold,
          lt_trans hc hlt, ?_, ?_⟩
        · intro x hx
          rcases List.mem_cons.mp hx with rfl | hx
          · exact hlt
          · exact hpre x hx
        · intro x hx
          rcases List.mem_cons.mp hx with rfl | hx
          · exact le_of_lt hlt
          · exact hall x (hC ▸ hx)
      · push_neg at hex2
        have hfold := gain_fold_no_improve sorted_data attr cs
          (get_information_gain_threshold sorted_data attr c, c) hex2
        refine ⟨[], c, cs, rfl, hfold, hc, by simp, ?_⟩
        intro x hx
        rcases List.mem_cons.mp hx with rfl | hx
        · exact le_rfl
        · exact hex2 x hx
    · have hstep : gain_fold sorted_data attr st c = st := by
        simp only [gain_fold]
        rw [if_neg hc]
      rw [hstep]
      have hex2 : ∃ t ∈ cs, get_information_gain_threshold sorted_data attr t > st.1 := by
        obtain ⟨t, ht, hgt⟩ := hex
        rcases List.mem_cons.mp ht with rfl | ht
        · exact absurd hgt hc
        · exact ⟨t, ht, hgt⟩
      obtain ⟨pre, t, post, hC, hfold, hlt, hpre, hall⟩ := ih st hex2
      refine ⟨c :: pre, t, post, by rw [hC, List.cons_append], hfold, hlt, ?_, ?_⟩
      · intro x hx
        rcases List.mem_cons.mp hx with rfl | hx
        · exact lt_of_le_of_lt (not_lt.mp hc) hlt
        · exact hpre x hx
      · intro x hx
        rcases List.mem_cons.mp hx with rfl | hx
        · exact le_trans (not_lt.mp hc) (le_of_lt hlt)
        · exact hall x (hC ▸ hx)

theorem candidates_loop_mem (attr : String) :
    ∀ (l : List Record) (prev : Value) (tested : List Value),
    ∀ t ∈ candidates_loop attr l prev tested, ∃ r ∈ l, t = getVal r attr := by
  intro l
  induction l with
  | nil =>
    intro prev tested t ht
    simp [candidates_loop] at ht
  | cons r rest ih =>
    intro prev tested t
    simp only [candidates_loop]
    by_cases h : getVal r attr ∉ tested ∧ getVal r "class" ≠ prev
    · rw [if_pos h]
      intro ht
      rcases List.mem_cons.mp ht with rfl | ht
      · exact ⟨r, List.mem_cons_self _ _, rfl⟩
      · obtain ⟨r', hr', rfl⟩ := ih _ _ t ht
        exact ⟨r', List.mem_cons_of_mem _ hr', rfl⟩
    · rw [if_neg h]
      intro ht
      obtain ⟨r', hr', rfl⟩ := ih _ _ t ht
      exact ⟨r', List.mem_cons_of_mem _ hr', rfl⟩

theorem insort_mem (attr : String) (r : Record) : ∀ (l : Dataset) (x : Record),
    x ∈ insort attr r l ↔ x = r ∨ x ∈ l := by
  intro l
  induction l with
  | nil =>
    intro x
    simp [insort]
  | cons y ys ih =>
    intro x
    simp only [insort]
    split
    · simp only [List.mem_cons]
    · rw [List.mem_cons, ih, List.mem_cons]
      tauto

theorem pySorted_aux_mem (attr : String) : ∀ (l acc : Dataset) (x : Record),
    (x ∈ l.foldl (fun acc r => insort attr r acc) acc) ↔ (x ∈ acc ∨ x ∈ l) := by
  intro l
  induction l with
  | nil =>
    intro acc x
    simp
  | cons r rest ih =>
    intro acc x
    rw [List.foldl_cons, ih, insort_mem, List.mem_cons]
    tauto

theorem pySorted_mem (data : Dataset) (attr : String) (x : Record) :
    x ∈ pySorted data attr ↔ x ∈ data := by
  unfold pySorted
  rw [pySorted_aux_mem]
  simp

/-- C6 (amended): `find_threshold` returns either a value occurring for the
attribute in some record or 0; it returns 0 whenever no evaluated candidate
threshold achieves information gain strictly greater than 0 (but, as the
counterexample shows, it may also return 0 when the winning candidate is the
value 0 itself); and whenever some candidate has positive gain, the result is
the earliest-evaluated candidate among those of maximal gain. -/
theorem C6_find_threshold_amended (data : Dataset) (attr : String) (hne : data ≠ []) :
    ((∃ r ∈ data, valInt (getVal r attr) = find_threshold data attr) ∨
      find_threshold data attr = 0) ∧
    ((∀ t ∈ candidate_thresholds data attr,
        get_information_gain_threshold (pySorted data attr) attr t ≤ 0) →
      find_threshold data attr = 0) ∧
    (∀ t0 ∈ candidate_thresholds data attr,
      0 < get_information_gain_threshold (pySorted data attr) attr t0 →
      ∃ pre t post, candidate_thresholds data attr = pre ++ t :: post ∧
        find_threshold data attr = valInt t ∧
        (∀ c ∈ pre, get_information_gain_threshold (pySorted data attr) attr c <
          get_information_gain_threshold (pySorted data attr) attr t) ∧
        (∀ c ∈ candidate_thresholds data attr,
          get_information_gain_threshold (pySorted data attr) attr c ≤
            get_information_gain_threshold (pySorted data attr) attr t)) := by
  have hfold : find_threshold data attr =
      valInt ((candidate_thresholds data attr).foldl
        (gain_fold (pySorted data attr) attr) (0, Value.vInt 0)).2 := by
    simp only [find_threshold, candidate_thresholds]
    rw [ft_loop_eq_fold]
  refine ⟨?_, ?_, ?_⟩
  · rcases gain_fold_mem (pySorted data attr) attr (candidate_thresholds data attr)
        (0, Value.vInt 0) with h | h
    · right
      rw [hfold, h]
      rfl
    · left
      obtain ⟨r, hr, ht⟩ := candidates_loop_mem attr (pySorted data attr) _ _ _ h
      refine ⟨r, (pySorted_mem data attr r).mp hr, ?_⟩
      rw [hfold, ht]
  · intro hall
    rw [hfold, gain_fold_no_improve _ _ _ _ (fun t ht => hall t ht)]
    rfl
  · intro t0 ht0 hpos
    obtain ⟨pre, t, post, hC, hfoldeq, hlt, hpre, hall⟩ :=
      gain_fold_first_max (pySorted data attr) attr (candidate_thresholds data attr)
        (0, Value.vInt 0) ⟨t0, ht0, hpos⟩
    exact ⟨pre, t, post, hC, by rw [hfold, hfoldeq], hpre, hall⟩

theorem ft_loop_cons_skip (sorted_data : Dataset) (attr : String) (r : Record)
    (rest : List Record) (prev : Value) (tested : List Value) (m : ℝ) (b : Value)
    (h : ¬(getVal r attr ∉ tested ∧ getVal r "class" ≠ prev)) :
    find_threshold_loop sorted_data attr (r :: rest) prev tested m b =
      find_threshold_loop sorted_data attr rest (getVal r "class") tested m b := by
  simp only [find_threshold_loop]
  rw [if_neg h]

theorem ft_loop_cons_update (sorted_data : Dataset) (attr : String) (r : Record)
    (rest : List Record) (prev : Value) (tested : List Value) (m : ℝ) (b : Value)
    (h : getVal r attr ∉ tested ∧ getVal r "class" ≠ prev)
    (hg : get_information_gain_threshold sorted_data attr (getVal r attr) > m) :
    find_threshold_loop sorted_data attr (r :: rest) prev tested m b =
      find_threshold_loop sorted_data attr rest (getVal r "class")
        (tested ++ [getVal r attr])
        (get_information_gain_threshold sorted_data attr (getVal r attr))
        (getVal r attr) := by
  simp only [find_threshold_loop]
  rw [if_pos h, if_pos hg]

theorem ft_loop_cons_noupdate (sorted_data : Dataset) (attr : String) (r : Record)
    (rest : List Record) (prev : Value) (tested : List Value) (m : ℝ) (b : Value)
    (h : getVal r attr ∉ tested ∧ getVal r "class" ≠ prev)
    (hg : ¬ get_information_gain_threshold sorted_data attr (getVal r attr) > m) :
    find_threshold_loop sorted_data attr (r :: rest) prev tested m b =
      find_threshold_loop sorted_data attr rest (getVal r "class")
        (tested ++ [getVal r attr]) m b := by
  simp only [find_threshold_loop]
  rw [if_pos h, if_neg hg]

/-- Four records over one continuous attribute `v` with values -2, -1, 0, 1
and classes 0, 1, 0, 1: the value 0 is the only candidate threshold whose
split leaves both classes on both sides. -/
def c6r1 : Record := [("v", Value.vInt (-2)), ("fnlwgt", Value.vInt 1), ("class", Value.vInt 0)]

def c6r2 : Record := [("v", Value.vInt (-1)), ("fnlwgt", Value.vInt 1), ("class", Value.vInt 1)]

def c6r3 : Record := [("v", Value.vInt 0), ("fnlwgt", Value.vInt 1), ("class", Value.vInt 0)]

def c6r4 : Record := [("v", Value.vInt 1), ("fnlwgt", Value.vInt 1), ("class", Value.vInt 1)]

def dataC6 : Dataset := [c6r1, c6r2, c6r3, c6r4]

theorem c6_sorted : pySorted dataC6 "v" = dataC6 := by decide

theorem c6_g1 : get_information_gain_threshold dataC6 "v" (Value.vInt (-2)) = 0 := by
  simp only [get_information_gain_threshold]
  rw [if_pos (by decide)]

theorem c6_g2 : get_information_gain_threshold dataC6 "v" (Value.vInt (-1)) = 0 := by
  simp only [get_information_gain_threshold]
  rw [if_pos (by decide)]

theorem c6_g3 : 0 < get_information_gain_threshold dataC6 "v" (Value.vInt 0) :=
  igthr_pos dataC6 "v" (Value.vInt 0) (by decide) (by decide) (by decide) (by decide)

theorem c6_g4 : get_information_gain_threshold dataC6 "v" (Value.vInt 1) = 0 := by
  simp only [get_information_gain_threshold]
  rw [if_pos (by decide)]

theorem c6_ft : find_threshold dataC6 "v" = 0 := by
  simp only [find_threshold]
  rw [c6_sorted]
  show valInt (find_threshold_loop dataC6 "v" (c6r1 :: c6r2 :: c6r3 :: [c6r4])
    (Value.vInt (-1)) [] 0 (Value.vInt 0)).2 = 0
  rw [ft_loop_cons_noupdate _ _ _ _ _ _ _ _ (by decide)
    (by rw [show getVal c6r1 "v" = Value.vInt (-2) from rfl, c6_g1]; norm_num)]
  rw [ft_loop_cons_noupdate _ _ _ _ _ _ _ _ (by decide)
    (by rw [show getVal c6r2 "v" = Value.vInt (-1) from rfl, c6_g2]; norm_num)]
  rw [ft_loop_cons_update _ _ _ _ _ _ _ _ (by decide)
    (by rw [show getVal c6r3 "v" = Value.vInt 0 from rfl]; exact c6_g3)]
  rw [ft_loop_cons_noupdate _ _ _ _ _ _ _ _ (by decide)
    (by rw [show getVal c6r4 "v" = Value.vInt 1 from rfl, c6_g4,
          show getVal c6r3 "v" = Value.vInt 0 from rfl]
        exact not_lt.mpr (le_of_lt c6_g3))]
  simp only [find_threshold_loop]
  rfl

/-- C6 counterexample: on `dataC6` the value 0 is an evaluated candidate with
information gain strictly greater than 0, yet `find_threshold` returns 0 —
refuting "returns 0 exactly when no candidate achieves gain > 0". -/
theorem C6_counterexample :
    find_threshold dataC6 "v" = 0 ∧
    Value.vInt 0 ∈ candidate_thresholds dataC6 "v" ∧
    0 < get_information_gain_threshold (pySorted dataC6 "v") "v" (Value.vInt 0) := by
  refine ⟨c6_ft, by decide, ?_⟩
  rw [c6_sorted]
  exact c6_g3

/-- Witness for the amended C6 at a concrete dataset. -/
theorem C6_amended_witness :
    dataC6 ≠ [] ∧
    (((∃ r ∈ dataC6, valInt (getVal r "v") = find_threshold dataC6 "v") ∨
        find_threshold dataC6 "v" = 0) ∧
      ((∀ t ∈ candidate_thresholds dataC6 "v",
          get_information_gain_threshold (pySorted dataC6 "v") "v" t ≤ 0) →
        find_threshold dataC6 "v" = 0) ∧
      (∀ t0 ∈ candidate_thresholds dataC6 "v",
        0 < get_information_gain_threshold (pySorted dataC6 "v") "v" t0 →
        ∃ pre t post, candidate_thresholds dataC6 "v" = pre ++ t :: post ∧
          find_threshold dataC6 "v" = valInt t ∧
          (∀ c ∈ pre, get_information_gain_threshold (pySorted dataC6 "v") "v" c <
            get_information_gain_threshold (pySorted dataC6 "v") "v" t) ∧
          (∀ c ∈ candidate_thresholds dataC6 "v",
            get_information_gain_threshold (pySorted dataC6 "v") "v" c ≤
              get_information_gain_threshold (pySorted dataC6 "v") "v" t))) :=
  ⟨by decide, C6_find_threshold_amended dataC6 "v" (by decide)⟩

/-! ### Claim C1: the single-class stopping rule -/

theorem c1_gain : get_information_gain exData "color" none = 0 := by
  simp only [get_information_gain]
  rw [show get_counts exData "color" none =
    [(Value.vStr "red", (1, 0)), (Value.vStr "blue", (1, 0))] from by decide]
  rw [show ([(Value.vStr "red", ((1 : ℕ), (0 : ℕ))), (Value.vStr "blue", (1, 0))].filter
    (fun e => e.2.1 ≠ 0 ∧ e.2.2 ≠ 0)) = [] from by decide]
  simp only [List.map_cons, List.map_nil, List.sum_cons, List.sum_nil]
  norm_num

theorem c1_select : select_attribute exData ["color"] = some ("color", none) := by
  simp only [select_attribute, List.foldl_cons, List.foldl_nil, select_step]
  rw [show (if represents_integer (getVal (exData.headD []) "color") = true
      then some (find_threshold exData "color") else (none : Option ℤ)) = none
    from if_neg (by decide)]
  rw [c1_gain]
  rw [if_pos (by norm_num : (0 : ℝ) > ((-1 : ℝ), (none : Option (String × Option ℤ))).1)]

/-- C1 (code bug): `exData` is a dataset in which every record has class 0,
yet `build_decision_tree` does not return a single leaf — it splits on
`color` and returns a root with two children.  The source's stop test
`len(data_classes) == len(set(data_classes))` fires only when all class
values are pairwise distinct, not when they are all equal. -/
theorem C1_single_class_not_leaf :
    exData.countP (fun r => getVal r "class" == Value.vInt 0) = exData.length ∧
    (build_decision_tree exData none).children.length = 2 := by
  refine ⟨by decide, ?_⟩
  show (build_aux exData ["color"] none 0 none).children.length = 2
  rw [build_aux_split exData ["color"] none 0 none "color" none (by decide) (by rfl)
    c1_select]
  rw [show split_on_attribute exData "color" none =
    [([exRecord1], Value.vStr "red"), ([exRecord2], Value.vStr "blue")] from by decide]
  rfl

/-! ### Claim C7: continuous splits -/

/-- Three records with a continuous attribute `v` (values 1, 2, 3; classes
0, 0, 1): the builder splits `v` at threshold 0. -/
def c7r1 : Record := [("v", Value.vInt 1), ("fnlwgt", Value.vInt 7), ("class", Value.vInt 0)]

def c7r2 : Record := [("v", Value.vInt 2), ("fnlwgt", Value.vInt 7), ("class", Value.vInt 0)]

def c7r3 : Record := [("v", Value.vInt 3), ("fnlwgt", Value.vInt 7), ("class", Value.vInt 1)]

def dataC7 : Dataset := [c7r1, c7r2, c7r3]

theorem c7_sorted : pySorted dataC7 "v" = dataC7 := by decide

theorem c7_g1 : get_information_gain_threshold dataC7 "v" (Value.vInt 1) = 0 := by
  simp only [get_information_gain_threshold]
  rw [if_pos (by decide)]

theorem c7_g3 : get_information_gain_threshold dataC7 "v" (Value.vInt 3) = 0 := by
  simp only [get_information_gain_threshold]
  rw [if_pos (by decide)]

theorem c7_ft : find_threshold dataC7 "v" = 0 := by
  simp only [find_threshold]
  rw [c7_sorted]
  show valInt (find_threshold_loop dataC7 "v" (c7r1 :: c7r2 :: [c7r3])
    (Value.vInt (-1)) [] 0 (Value.vInt 0)).2 = 0
  rw [ft_loop_cons_noupdate _ _ _ _ _ _ _ _ (by decide)
    (by rw [show getVal c7r1 "v" = Value.vInt 1 from rfl, c7_g1]; norm_num)]
  rw [ft_loop_cons_skip _ _ _ _ _ _ _ _ (by decide)]
  rw [ft_loop_cons_noupdate _ _ _ _ _ _ _ _ (by decide)
    (by rw [show getVal c7r3 "v" = Value.vInt 3 from rfl, c7_g3]; norm_num)]
  simp only [find_threshold_loop]
  rfl

theorem c7_gain : get_information_gain dataC7 "v" (some 0) = 0 := by
  simp only [get_information_gain]
  rw [show get_counts dataC7 "v" (some 0) =
    [(Value.vStr "below", (0, 0)), (Value.vStr "above", (2, 1))] from by decide]
  rw [show ([(Value.vStr "below", ((0 : ℕ), (0 : ℕ))), (Value.vStr "above", (2, 1))].filter
    (fun e => e.2.1 ≠ 0 ∧ e.2.2 ≠ 0)) = [(Value.vStr "above", (2, 1))] from by decide]
  simp only [List.map_cons, List.map_nil, List.sum_cons, List.sum_nil]
  rw [show dataC7.length = 3 from rfl]
  norm_num

theorem c7_select : select_attribute dataC7 ["v"] = some ("v", some 0) := by
  simp only [select_attribute, List.foldl_cons, List.foldl_nil, select_step]
  rw [show (if represents_integer (getVal (dataC7.headD []) "v") = true
      then some (find_threshold dataC7 "v") else (none : Option ℤ)) =
      some (find_threshold dataC7 "v")
    from if_pos (by decide)]
  rw [c7_ft, c7_gain]
  rw [if_pos (by norm_num : (0 : ℝ) > ((-1 : ℝ), (none : Option (String × Option ℤ))).1)]

/-- `build_aux` in the continuous-split case, with the two children spelled
out: the below child from the records with value < θ, the above child from
the rest, in that fixed order. -/
theorem build_aux_split_threshold (data : Dataset) (attributes : List String)
    (max_depth : Option ℕ) (depth : ℕ) (category : Option Value) (a : String) (θ : ℤ)
    (h1 : ¬ stop_one data attributes)
    (h2 : depth_exceeded max_depth (depth + 1) = false)
    (hsel : select_attribute data attributes = some (a, some θ)) :
    build_aux data attributes max_depth depth category =
      Node.mk (some a) (some θ) (majority_label data) category
        [if (data.filter (fun r => valInt (getVal r a) < θ)).length = 0 then
            Node.mk none none (majority_label data) (some (Value.vStr "below")) []
          else build_aux (data.filter (fun r => valInt (getVal r a) < θ))
            (attributes.erase a) max_depth (depth + 1) (some (Value.vStr "below")),
         if (data.filter (fun r => ¬ valInt (getVal r a) < θ)).length = 0 then
            Node.mk none none (majority_label data) (some (Value.vStr "above")) []
          else build_aux (data.filter (fun r => ¬ valInt (getVal r a) < θ))
            (attributes.erase a) max_depth (depth + 1) (some (Value.vStr "above"))] := by
  rw [build_aux_split data attributes max_depth depth category a (some θ) h1 h2 hsel]
  rfl

/-- C7: every node the builder splits on a continuous attribute — i.e. every
`build_aux` call whose resulting node carries a threshold — has exactly two
children in the fixed order [below-threshold, at-or-above-threshold]: the
below child is built from exactly the records with value < threshold (a leaf
with the parent's majority label when that subset is empty) with category
"below", the above child likewise from the records with value ≥ threshold;
and classifying a record whose value at the split attribute is the integer n
recurses into children[0] if n < threshold and into children[1] otherwise. -/
theorem C7_continuous_split (data : Dataset) (attributes : List String)
    (max_depth : Option ℕ) (depth : ℕ) (category : Option Value) (a : String) (θ : ℤ)
    (hattr : (build_aux data attributes max_depth depth category).attribute = some a)
    (hthr : (build_aux data attributes max_depth depth category).threshold = some θ) :
    (build_aux data attributes max_depth depth category).children =
      [if (data.filter (fun r => valInt (getVal r a) < θ)).length = 0 then
          Node.mk none none (majority_label data) (some (Value.vStr "below")) []
        else build_aux (data.filter (fun r => valInt (getVal r a) < θ))
          (attributes.erase a) max_depth (depth + 1) (some (Value.vStr "below")),
       if (data.filter (fun r => ¬ valInt (getVal r a) < θ)).length = 0 then
          Node.mk none none (majority_label data) (some (Value.vStr "above")) []
        else build_aux (data.filter (fun r => ¬ valInt (getVal r a) < θ))
          (attributes.erase a) max_depth (depth + 1) (some (Value.vStr "above"))] ∧
    (∀ item n, lookupVal item a = some (Value.vInt n) →
      decision_tree_classify item (build_aux data attributes max_depth depth category) =
        (if n < θ then
          decision_tree_classify item
            (if (data.filter (fun r => valInt (getVal r a) < θ)).length = 0 then
              Node.mk none none (majority_label data) (some (Value.vStr "below")) []
            else build_aux (data.filter (fun r => valInt (getVal r a) < θ))
              (attributes.erase a) max_depth (depth + 1) (some (Value.vStr "below")))
        else
          decision_tree_classify item
            (if (data.filter (fun r => ¬ valInt (getVal r a) < θ)).length = 0 then
              Node.mk none none (majority_label data) (some (Value.vStr "above")) []
            else build_aux (data.filter (fun r => ¬ valInt (getVal r a) < θ))
              (attributes.erase a) max_depth (depth + 1) (some (Value.vStr "above"))))) := by
  by_cases h1 : stop_one data attributes
  · rw [build_aux_stop_one _ _ _ _ _ h1] at hattr
    simp [Node.attribute] at hattr
  · cases h2 : depth_exceeded max_depth (depth + 1) with
    | true =>
      rw [build_aux_stop_depth _ _ _ _ _ h1 h2] at hattr
      simp [Node.attribute] at hattr
    | false =>
      cases hsel : select_attribute data attributes with
      | none =>
        rw [build_aux_stop_none _ _ _ _ _ h1 h2 hsel] at hattr
        simp [Node.attribute] at hattr
      | some p =>
        obtain ⟨ba, bt⟩ := p
        rw [build_aux_split data attributes max_depth depth category ba bt h1 h2 hsel]
          at hattr hthr
        simp only [Node.attribute] at hattr
        injection hattr with hba
        rw [hba] at hsel
        simp only [Node.threshold] at hthr
        rw [hthr] at hsel
        have hb := build_aux_split_threshold data attributes max_depth depth category a θ
          h1 h2 hsel
        rw [hb]
        refine ⟨rfl, ?_⟩
        intro item n hlook
        rw [classify_int_two item a θ (majority_label data) category _ _
          (Value.vInt n) hlook rfl]
        rfl

theorem c7_build_attr : (build_aux dataC7 ["v"] none 0 none).attribute = some "v" := by
  rw [build_aux_split_threshold dataC7 ["v"] none 0 none "v" 0 (by decide) (by rfl)
    c7_select]
  rfl

theorem c7_build_thr : (build_aux dataC7 ["v"] none 0 none).threshold = some 0 := by
  rw [build_aux_split_threshold dataC7 ["v"] none 0 none "v" 0 (by decide) (by rfl)
    c7_select]
  rfl

/-- Witness for C7: a concrete build that splits continuously at threshold 0. -/
theorem C7_witness :
    (build_aux dataC7 ["v"] none 0 none).attribute = some "v" ∧
    (build_aux dataC7 ["v"] none 0 none).threshold = some 0 ∧
    ((build_aux dataC7 ["v"] none 0 none).children =
      [if (dataC7.filter (fun r => valInt (getVal r "v") < 0)).length = 0 then
          Node.mk none none (majority_label dataC7) (some (Value.vStr "below")) []
        else build_aux (dataC7.filter (fun r => valInt (getVal r "v") < 0))
          (["v"].erase "v") none (0 + 1) (some (Value.vStr "below")),
       if (dataC7.filter (fun r => ¬ valInt (getVal r "v") < 0)).length = 0 then
          Node.mk none none (majority_label dataC7) (some (Value.vStr "above")) []
        else build_aux (dataC7.filter (fun r => ¬ valInt (getVal r "v") < 0))
          (["v"].erase "v") none (0 + 1) (some (Value.vStr "above"))] ∧
    (∀ item n, lookupVal item "v" = some (Value.vInt n) →
      decision_tree_classify item (build_aux dataC7 ["v"] none 0 none) =
        (if n < 0 then
          decision_tree_classify item
            (if (dataC7.filter (fun r => valInt (getVal r "v") < 0)).length = 0 then
              Node.mk none none (majority_label dataC7) (some (Value.vStr "below")) []
            else build_aux (dataC7.filter (fun r => valInt (getVal r "v") < 0))
              (["v"].erase "v") none (0 + 1) (some (Value.vStr "below")))
        else
          decision_tree_classify item
            (if (dataC7.filter (fun r => ¬ valInt (getVal r "v") < 0)).length = 0 then
              Node.mk none none (majority_label dataC7) (some (Value.vStr "above")) []
            else build_aux (dataC7.filter (fun r => ¬ valInt (getVal r "v") < 0))
              (["v"].erase "v") none (0 + 1) (some (Value.vStr "above")))))) :=
  ⟨c7_build_attr, c7_build_thr,
    C7_continuous_split dataC7 ["v"] none 0 none "v" 0 c7_build_attr c7_build_thr⟩

/-! ### Claim C5: baseline attribute eligibility -/

/-- Two records whose first key is the label attribute itself: the baseline
loop (decision_tree.py:29-31) skips only `fnlwgt`, so `class` is evaluated
as a candidate. -/
def c5r1 : Record := [("class", Value.vInt 0), ("fnlwgt", Value.vInt 1), ("a", Value.vStr "x")]

def c5r2 : Record := [("class", Value.vInt 1), ("fnlwgt", Value.vInt 2), ("a", Value.vStr "x")]

def dataC5 : Dataset := [c5r1, c5r2]

theorem c5_gc0 : get_information_gain_threshold dataC5 "class" (Value.vInt 0) = 0 := by
  simp only [get_information_gain_threshold]
  rw [if_pos (by decide)]

theorem c5_gc1 : get_information_gain_threshold dataC5 "class" (Value.vInt 1) = 0 := by
  simp only [get_information_gain_threshold]
  rw [if_pos (by decide)]

theorem c5_ga : get_information_gain_threshold dataC5 "a" (Value.vStr "x") = 0 := by
  simp only [get_information_gain_threshold]
  rw [if_pos (by decide)]

theorem c5_ft_class : find_threshold dataC5 "class" = 0 := by
  simp only [find_threshold]
  rw [show pySorted dataC5 "class" = dataC5 from by decide]
  show valInt (find_threshold_loop dataC5 "class" (c5r1 :: [c5r2])
    (Value.vInt (-1)) [] 0 (Value.vInt 0)).2 = 0
  rw [ft_loop_cons_noupdate _ _ _ _ _ _ _ _ (by decide)
    (by rw [show getVal c5r1 "class" = Value.vInt 0 from rfl, c5_gc0]; norm_num)]
  rw [ft_loop_cons_noupdate _ _ _ _ _ _ _ _ (by decide)
    (by rw [show getVal c5r2 "class" = Value.vInt 1 from rfl, c5_gc1]; norm_num)]
  simp only [find_threshold_loop]
  rfl

theorem c5_ft_a : find_threshold dataC5 "a" = 0 := by
  simp only [find_threshold]
  rw [show pySorted dataC5 "a" = dataC5 from by decide]
  show valInt (find_threshold_loop dataC5 "a" (c5r1 :: [c5r2])
    (Value.vInt (-1)) [] 0 (Value.vInt 0)).2 = 0
  rw [ft_loop_cons_noupdate _ _ _ _ _ _ _ _ (by decide)
    (by rw [show getVal c5r1 "a" = Value.vStr "x" from rfl, c5_ga]; norm_num)]
  rw [ft_loop_cons_skip _ _ _ _ _ _ _ _ (by decide)]
  simp only [find_threshold_loop]
  rfl

theorem c5_counts_class : baseline_counts dataC5 "class" =
    [(Value.vStr "below", (0, 0)), (Value.vStr "above", (1, 1))] := by
  simp only [baseline_counts]
  rw [if_pos (by decide), c5_ft_class]
  decide

theorem c5_counts_a : baseline_counts dataC5 "a" = [(Value.vStr "x", (1, 1))] := by
  simp only [baseline_counts]
  rw [if_neg (by decide)]
  decide

theorem c5_step1 : baseline_step dataC5 ((0 : ℚ), (none : Option String), "") "class" =
    (1/2, some "class", "class") := by
  simp only [baseline_step]
  rw [if_neg (by decide : ¬ ("class" : String) = "fnlwgt")]
  rw [c5_counts_class]
  rw [show attr_correct [(Value.vStr "below", ((0 : ℕ), (0 : ℕ))),
    (Value.vStr "above", (1, 1))] = 1 from by decide]
  rw [show dataC5.length = 2 from rfl]
  rw [if_pos (by norm_num : ((1 : ℕ) : ℚ) / ((2 : ℕ) : ℚ) >
    ((0 : ℚ), (none : Option String), "").1)]
  norm_num

theorem c5_step2 : baseline_step dataC5 ((1/2 : ℚ), some "class", "class") "fnlwgt" =
    (1/2, some "class", "fnlwgt") := by
  simp only [baseline_step]
  rw [if_pos trivial]

theorem c5_step3 : baseline_step dataC5 ((1/2 : ℚ), some "class", "fnlwgt") "a" =
    (1/2, some "class", "a") := by
  simp only [baseline_step]
  rw [if_neg (by decide : ¬ ("a" : String) = "fnlwgt")]
  rw [c5_counts_a]
  rw [show attr_correct [(Value.vStr "x", ((1 : ℕ), (1 : ℕ)))] = 1 from by decide]
  rw [show dataC5.length = 2 from rfl]
  rw [if_neg (by norm_num : ¬ ((1 : ℕ) : ℚ) / ((2 : ℕ) : ℚ) >
    ((1/2 : ℚ), some "class", "fnlwgt").1)]

/-- C5 (code bug): `find_baseline_attribute` skips only the weighting
attribute `fnlwgt` (decision_tree.py:30); the label attribute `class` is
evaluated as a candidate and, on `dataC5`, is returned as the baseline
attribute, refuting "neither can be returned as the baseline attribute". -/
theorem C5_label_attribute_not_excluded :
    find_baseline_attribute dataC5 =
      (some "class", [(Value.vStr "below", 1), (Value.vStr "above", 1)]) := by
  simp only [find_baseline_attribute]
  rw [show ((dataC5.headD []).map (fun p => p.1)) = ["class", "fnlwgt", "a"] from rfl]
  simp only [List.foldl_cons, List.foldl_nil]
  rw [c5_step1, c5_step2, c5_step3]
  show (some "class",
    majority_labels (if represents_integer (getVal (dataC5.headD []) "class") = true
      then get_counts dataC5 "class" (some (find_threshold dataC5 "a"))
      else get_counts dataC5 "class" none)) =
    (some "class", [(Value.vStr "below", 1), (Value.vStr "above", 1)])
  rw [if_pos (by decide), c5_ft_a]
  decide

/-! ### Claim C4: baseline labels for a continuous winner -/

/-- Five records on one continuous attribute `A` with values 1..5 and classes
0, 0, 1, 0, 1: attribute `A`'s own optimal threshold is 4, but the last key
of the first record is `class`, whose threshold is 0. -/
def c4r1 : Record := [("A", Value.vInt 1), ("fnlwgt", Value.vInt 9), ("class", Value.vInt 0)]

def c4r2 : Record := [("A", Value.vInt 2), ("fnlwgt", Value.vInt 9), ("class", Value.vInt 0)]

def c4r3 : Record := [("A", Value.vInt 3), ("fnlwgt", Value.vInt 9), ("class", Value.vInt 1)]

def c4r4 : Record := [("A", Value.vInt 4), ("fnlwgt", Value.vInt 9), ("class", Value.vInt 0)]

def c4r5 : Record := [("A", Value.vInt 5), ("fnlwgt", Value.vInt 9), ("class", Value.vInt 1)]

def dataC4 : Dataset := [c4r1, c4r2, c4r3, c4r4, c4r5]

/-- `dataC4` stably sorted by the `class` values 0, 0, 1, 0, 1. -/
def sortedC4class : Dataset := [c4r1, c4r2, c4r4, c4r3, c4r5]

theorem c4_gA1 : get_information_gain_threshold dataC4 "A" (Value.vInt 1) = 0 := by
  simp only [get_information_gain_threshold]
  rw [if_pos (by decide)]

theorem c4_gA3 : get_information_gain_threshold dataC4 "A" (Value.vInt 3) = 0 := by
  simp only [get_information_gain_threshold]
  rw [if_pos (by decide)]

theorem c4_gA4 : 0 < get_information_gain_threshold dataC4 "A" (Value.vInt 4) :=
  igthr_pos dataC4 "A" (Value.vInt 4) (by decide) (by decide) (by decide) (by decide)

theorem c4_gA5 : get_information_gain_threshold dataC4 "A" (Value.vInt 5) = 0 := by
  simp only [get_information_gain_threshold]
  rw [if_pos (by decide)]

theorem c4_gC0 : get_information_gain_threshold sortedC4class "class" (Value.vInt 0) = 0 := by
  simp only [get_information_gain_threshold]
  rw [if_pos (by decide)]

theorem c4_gC1 : get_information_gain_threshold sortedC4class "class" (Value.vInt 1) = 0 := by
  simp only [get_information_gain_threshold]
  rw [if_pos (by decide)]

theorem c4_ft_A : find_threshold dataC4 "A" = 4 := by
  simp only [find_threshold]
  rw [show pySorted dataC4 "A" = dataC4 from by decide]
  show valInt (find_threshold_loop dataC4 "A" (c4r1 :: c4r2 :: c4r3 :: c4r4 :: [c4r5])
    (Value.vInt (-1)) [] 0 (Value.vInt 0)).2 = 4
  rw [ft_loop_cons_noupdate _ _ _ _ _ _ _ _ (by decide)
    (by rw [show getVal c4r1 "A" = Value.vInt 1 from rfl, c4_gA1]; norm_num)]
  rw [ft_loop_cons_skip _ _ _ _ _ _ _ _ (by decide)]
  rw [ft_loop_cons_noupdate _ _ _ _ _ _ _ _ (by decide)
    (by rw [show getVal c4r3 "A" = Value.vInt 3 from rfl, c4_gA3]; norm_num)]
  rw [ft_loop_cons_update _ _ _ _ _ _ _ _ (by decide)
    (by rw [show getVal c4r4 "A" = Value.vInt 4 from rfl]; exact c4_gA4)]
  rw [ft_loop_cons_noupdate _ _ _ _ _ _ _ _ (by decide)
    (by rw [show getVal c4r5 "A" = Value.vInt 5 from rfl, c4_gA5,
          show getVal c4r4 "A" = Value.vInt 4 from rfl]
        exact not_lt.mpr (le_of_lt c4_gA4))]
  simp only [find_threshold_loop]
  rfl

theorem c4_ft_class : find_threshold dataC4 "class" = 0 := by
  simp only [find_threshold]
  rw [show pySorted dataC4 "class" = sortedC4class from by decide]
  show valInt (find_threshold_loop sortedC4class "class"
    (c4r1 :: c4r2 :: c4r4 :: c4r3 :: [c4r5]) (Value.vInt (-1)) [] 0 (Value.vInt 0)).2 = 0
  rw [ft_loop_cons_noupdate _ _ _ _ _ _ _ _ (by decide)
    (by rw [show getVal c4r1 "class" = Value.vInt 0 from rfl, c4_gC0]; norm_num)]
  rw [ft_loop_cons_skip _ _ _ _ _ _ _ _ (by decide)]
  rw [ft_loop_cons_skip _ _ _ _ _ _ _ _ (by decide)]
  rw [ft_loop_cons_noupdate _ _ _ _ _ _ _ _ (by decide)
    (by rw [show getVal c4r3 "class" = Value.vInt 1 from rfl, c4_gC1]; norm_num)]
  rw [ft_loop_cons_skip _ _ _ _ _ _ _ _ (by decide)]
  simp only [find_threshold_loop]
  rfl

theorem c4_counts_A : baseline_counts dataC4 "A" =
    [(Value.vStr "below", (2, 1)), (Value.vStr "above", (1, 1))] := by
  simp only [baseline_counts]
  rw [if_pos (by decide), c4_ft_A]
  decide

theorem c4_counts_class : baseline_counts dataC4 "class" =
    [(Value.vStr "below", (0, 0)), (Value.vStr "above", (3, 2))] := by
  simp only [baseline_counts]
  rw [if_pos (by decide), c4_ft_class]
  decide

theorem c4_step1 : baseline_step dataC4 ((0 : ℚ), (none : Option String), "") "A" =
    (3/5, some "A", "A") := by
  simp only [baseline_step]
  rw [if_neg (by decide : ¬ ("A" : String) = "fnlwgt")]
  rw [c4_counts_A]
  rw [show attr_correct [(Value.vStr "below", ((2 : ℕ), (1 : ℕ))),
    (Value.vStr "above", (1, 1))] = 3 from by decide]
  rw [show dataC4.length = 5 from rfl]
  rw [if_pos (by norm_num : ((3 : ℕ) : ℚ) / ((5 : ℕ) : ℚ) >
    ((0 : ℚ), (none : Option String), "").1)]
  norm_num

theorem c4_step2 : baseline_step dataC4 ((3/5 : ℚ), some "A", "A") "fnlwgt" =
    (3/5, some "A", "fnlwgt") := by
  simp only [baseline_step]
  rw [if_pos trivial]

theorem c4_step3 : baseline_step dataC4 ((3/5 : ℚ), some "A", "fnlwgt") "class" =
    (3/5, some "A", "class") := by
  simp only [baseline_step]
  rw [if_neg (by decide : ¬ ("class" : String) = "fnlwgt")]
  rw [c4_counts_class]
  rw [show attr_correct [(Value.vStr "below", ((0 : ℕ), (0 : ℕ))),
    (Value.vStr "above", (3, 2))] = 3 from by decide]
  rw [show dataC4.length = 5 from rfl]
  rw [if_neg (by norm_num : ¬ ((3 : ℕ) : ℚ) / ((5 : ℕ) : ℚ) >
    ((3/5 : ℚ), some "A", "fnlwgt").1)]

theorem c4_baseline : find_baseline_attribute dataC4 =
    (some "A", [(Value.vStr "below", 1), (Value.vStr "above", 0)]) := by
  simp only [find_baseline_attribute]
  rw [show ((dataC4.headD []).map (fun p => p.1)) = ["A", "fnlwgt", "class"] from rfl]
  simp only [List.foldl_cons, List.foldl_nil]
  rw [c4_step1, c4_step2, c4_step3]
  show (some "A",
    majority_labels (if represents_integer (getVal (dataC4.headD []) "A") = true
      then get_counts dataC4 "A" (some (find_threshold dataC4 "class"))
      else get_counts dataC4 "A" none)) =
    (some "A", [(Value.vStr "below", 1), (Value.vStr "above", 0)])
  rw [if_pos (by decide), c4_ft_class]
  decide

/-- C4 (code bug): on `dataC4` the baseline selects the continuous attribute
`A`, whose own optimal threshold is 4, but the returned mapping is the
majority labels of `A`'s counts at `find_threshold dataC4 "class"` = 0 â the
loop variable leaked from line 29 holds the last key, `class`, when line 46
runs â and so differs from the majority labels at `A`'s own threshold
(moreover `find_baseline_attribute` returns no threshold at all). -/
theorem C4_baseline_labels_wrong_threshold :
    find_baseline_attribute dataC4 =
      (some "A", [(Value.vStr "below", 1), (Value.vStr "above", 0)]) ∧
    find_threshold dataC4 "A" = 4 ∧
    majority_labels (get_counts dataC4 "A" (some (find_threshold dataC4 "A"))) =
      [(Value.vStr "below", 0), (Value.vStr "above", 1)] ∧
    (find_baseline_attribute dataC4).2 ≠
      majority_labels (get_counts dataC4 "A" (some (find_threshold dataC4 "A"))) := by
  refine ⟨c4_baseline, c4_ft_A, ?_, ?_⟩
  · rw [c4_ft_A]
    decide
  · rw [c4_baseline, c4_ft_A]
    decide

end IncomeTree
